import Mathlib

/-!
Verification of the fusis IPVS reconciliation engine (`ipvs/ipvs.go`).

The engine keeps an in-kernel load-balancing table synchronized with a
desired state: it diffs normalized service sets, applies adds then removes
through the kernel adapter, and then runs an unconditional per-service
destination reconciliation.  We embed the engine as a pure function over a
desired-state record and a kernel-table value, threading an explicit event
trace and a failure oracle for the adapter calls.
-/

namespace Fusis

/-- Modelled from the spec: the repository's `types.Service` record (its
definition lives outside the provided `ipvs` source).  Attributes per the
data model: host, port, transport protocol, scheduling algorithm, name and
mode label; reconciliation identity is (host, port, protocol, scheduler). -/
structure Service where
  Name : String
  Host : String
  Port : Nat
  Protocol : String
  Scheduler : String
  Mode : String
deriving DecidableEq, Repr

/-- Modelled from the spec: the repository's `types.Destination` record.
Attributes: host, port, weight, forwarding mode, name and owning-service
reference; reconciliation identity excludes name and the owning-service
reference. -/
structure Destination where
  Name : String
  Host : String
  Port : Nat
  Weight : Int
  Mode : String
  ServiceId : String
deriving DecidableEq, Repr

/-- Modelled from the spec: the state provider interface `state.State`
(`GetServices() []Service`, `GetDestinations(*Service) []Destination`),
returning fully materialized snapshots. -/
structure State where
  GetServices : List Service
  GetDestinations : Service → List Destination

/-- Modelled from the spec: the kernel representation of a service, carrying
only the fields the kernel persists (translators are field mapping only; name
and mode are kernel-non-persisted metadata). -/
structure IpvsService where
  Host : String
  Port : Nat
  Protocol : String
  Scheduler : String
deriving DecidableEq, Repr

/-- Modelled from the spec: the kernel representation of a destination,
carrying host, port, weight and forwarding mode (name and owning-service
reference are kernel-non-persisted metadata). -/
structure IpvsDestination where
  Host : String
  Port : Nat
  Weight : Int
  Mode : String
deriving DecidableEq, Repr

/-- Normalization of a service as performed inline by `getStateServicesSet`
(`s.Name = ""; s.Mode = ""`). -/
def normalizeService (s : Service) : Service :=
  { s with Name := "", Mode := "" }

/-- Normalization of a destination as performed inline by
`getStateDestinationsSet` (`d.Name = ""; d.ServiceId = ""`). -/
def normalizeDestination (d : Destination) : Destination :=
  { d with Name := "", ServiceId := "" }

/-- Modelled from the spec: the domain-to-kernel service translator
`ToIpvsService` (field mapping only; drops the kernel-non-persisted name
and mode). -/
def ToIpvsService (s : Service) : IpvsService :=
  ⟨s.Host, s.Port, s.Protocol, s.Scheduler⟩

/-- Modelled from the spec: the kernel-to-domain service translator
`FromService` (field mapping only; kernel records carry no name or mode, so
those fields come back empty). -/
def FromService (s : IpvsService) : Service :=
  ⟨"", s.Host, s.Port, s.Protocol, s.Scheduler, ""⟩

/-- Modelled from the spec: the domain-to-kernel translator
`ToIpvsDestination` (field mapping only). -/
def ToIpvsDestination (d : Destination) : IpvsDestination :=
  ⟨d.Host, d.Port, d.Weight, d.Mode⟩

/-- Modelled from the spec: the kernel-to-domain translator
`fromDestination` (field mapping only; name and owning-service reference
come back empty). -/
def fromDestination (d : IpvsDestination) : Destination :=
  ⟨"", d.Host, d.Port, d.Weight, d.Mode, ""⟩

/-- Modelled from the spec: the live kernel table — the installed virtual
services together with the destinations currently bound to each service key
(lists with set semantics, mirroring the slices the adapter returns). -/
structure Kernel where
  services : List IpvsService
  dests : IpvsService → List IpvsDestination

/-- `mapset` insertion: adding an element already present leaves the set
unchanged (insertion order is kept for determinism of the model). -/
def insertU {α : Type} [DecidableEq α] (x : α) (l : List α) : List α :=
  if x ∈ l then l else l ++ [x]

/-- Modelled from the spec: adapter primitive `ListServices`. -/
def listServices (k : Kernel) : List IpvsService :=
  k.services

/-- Modelled from the spec: adapter primitive `GetService`, returning the
service's current destinations, failing when the service is not installed. -/
def getService (k : Kernel) (s : IpvsService) : Option (List IpvsDestination) :=
  if s ∈ k.services then some (k.dests s) else none

/-- Modelled from the spec: adapter primitive `AddService`; a newly added
service has no destinations. -/
def addService (k : Kernel) (s : IpvsService) : Kernel :=
  if s ∈ k.services then k
  else ⟨k.services ++ [s], fun t => if t = s then [] else k.dests t⟩

/-- Modelled from the spec: adapter primitive `DeleteService`, which
cascade-removes the service's destinations. -/
def delService (k : Kernel) (s : IpvsService) : Kernel :=
  ⟨k.services.filter (fun t => t ≠ s), fun t => if t = s then [] else k.dests t⟩

/-- Modelled from the spec: adapter primitive `AddDestination`. -/
def addDestination (k : Kernel) (s : IpvsService) (d : IpvsDestination) : Kernel :=
  ⟨k.services, fun t => if t = s then insertU d (k.dests s) else k.dests t⟩

/-- Modelled from the spec: adapter primitive `DeleteDestination`. -/
def delDestination (k : Kernel) (s : IpvsService) (d : IpvsDestination) : Kernel :=
  ⟨k.services, fun t => if t = s then (k.dests s).filter (fun x => x ≠ d) else k.dests t⟩

/-- One observable call made during a pass: the two state-provider queries
and the six adapter primitives used by `Sync`. -/
inductive Event where
  | callGetServices : Event
  | callGetDestinations : Service → Event
  | listServices : Event
  | getService : IpvsService → Event
  | addService : IpvsService → Event
  | delService : IpvsService → Event
  | addDest : IpvsService → IpvsDestination → Event
  | delDest : IpvsService → IpvsDestination → Event
deriving DecidableEq, Repr

/-- A failure oracle: decides which adapter calls return an error (the
provider queries carry no error in their signature and never consult it). -/
def Oracle : Type := Event → Bool

/-- Result of a pass (or of one of its loops): the error flag, the kernel
table after the applied calls, and the trace of calls issued so far. -/
structure Res where
  err : Bool
  ker : Kernel
  tr : List Event

/-- Building a `mapset.Set` by adding each element of a list in turn. -/
def mkSet {α : Type} [DecidableEq α] (l : List α) : List α :=
  l.foldl (fun acc x => insertU x acc) []

/-- `mapset` difference: the elements of `a` not present in `b`. -/
def setDiff {α : Type} [DecidableEq α] (a b : List α) : List α :=
  a.filter (fun x => x ∉ b)

/-- `getStateServicesSet`: the desired services with name and mode zeroed,
collected into a set. -/
def getStateServicesSet (st : State) : List Service :=
  mkSet (st.GetServices.map normalizeService)

/-- `getCurrentServicesSet`: the kernel services translated back to domain
records and collected into a set. -/
def getCurrentServicesSet (k : Kernel) : List Service :=
  mkSet (k.services.map FromService)

/-- `getStateDestinationsSet`: the desired destinations of a service with
name and owning-service reference zeroed, collected into a set (the
health-check filter is disabled in the observed logic). -/
def getStateDestinationsSet (st : State) (svc : Service) : List Destination :=
  mkSet ((st.GetDestinations svc).map normalizeDestination)

/-- `getCurrentDestinationsSet`: the destinations the kernel currently holds
for the service, translated to domain records; fails when `GetService`
fails. -/
def getCurrentDestinationsSet (k : Kernel) (svc : Service) : Option (List Destination) :=
  (getService k (ToIpvsService svc)).map (fun ds => mkSet (ds.map fromDestination))

/-- The `AddDestination` loop of `addServiceAndDestinations` and of
`syncDestinations`: issue one call per destination, aborting on the first
error. -/
def addDests (oracle : Oracle) (isvc : IpvsService) :
    List Destination → Kernel → List Event → Res
  | [], k, tr => ⟨false, k, tr⟩
  | d :: ds, k, tr =>
    let e := Event.addDest isvc (ToIpvsDestination d)
    if oracle e then ⟨true, k, tr ++ [e]⟩
    else addDests oracle isvc ds (addDestination k isvc (ToIpvsDestination d)) (tr ++ [e])

/-- The `DeleteDestination` loop of `syncDestinations`. -/
def delDests (oracle : Oracle) (isvc : IpvsService) :
    List Destination → Kernel → List Event → Res
  | [], k, tr => ⟨false, k, tr⟩
  | d :: ds, k, tr =>
    let e := Event.delDest isvc (ToIpvsDestination d)
    if oracle e then ⟨true, k, tr ++ [e]⟩
    else delDests oracle isvc ds (delDestination k isvc (ToIpvsDestination d)) (tr ++ [e])

/-- `addServiceAndDestinations`: `AddService`, then `AddDestination` for each
given destination, aborting on the first error. -/
def addServiceAndDestinations (oracle : Oracle) (svc : Service) (dsts : List Destination)
    (k : Kernel) (tr : List Event) : Res :=
  let isvc := ToIpvsService svc
  let e := Event.addService isvc
  if oracle e then ⟨true, k, tr ++ [e]⟩
  else addDests oracle isvc dsts (addService k isvc) (tr ++ [e])

/-- The loop over `rulesToAdd` in `Sync`: for each service of the diff, query
the provider for its destinations (with the normalized copy taken from the
set) and add service and destinations. -/
def addLoop (oracle : Oracle) (st : State) :
    List Service → Kernel → List Event → Res
  | [], k, tr => ⟨false, k, tr⟩
  | s :: rest, k, tr =>
    let dsts := st.GetDestinations s
    let r := addServiceAndDestinations oracle s dsts k (tr ++ [Event.callGetDestinations s])
    if r.err then r else addLoop oracle st rest r.ker r.tr

/-- The loop over `rulesToRemove` in `Sync`: one `DeleteService` per removed
service, aborting on the first error. -/
def delLoop (oracle : Oracle) :
    List Service → Kernel → List Event → Res
  | [], k, tr => ⟨false, k, tr⟩
  | s :: rest, k, tr =>
    let e := Event.delService (ToIpvsService s)
    if oracle e then ⟨true, k, tr ++ [e]⟩
    else delLoop oracle rest (delService k (ToIpvsService s)) (tr ++ [e])

/-- `syncDestinations`: fetch the desired and current destination sets of the
service, diff them over normalized records, then apply the additions and the
removals, aborting on the first error. -/
def syncDestinations (oracle : Oracle) (st : State) (svc : Service)
    (k : Kernel) (tr : List Event) : Res :=
  let tr := tr ++ [Event.callGetDestinations svc]
  let stateSet := getStateDestinationsSet st svc
  let e := Event.getService (ToIpvsService svc)
  let tr := tr ++ [e]
  match (if oracle e then none else getCurrentDestinationsSet k svc) with
  | none => ⟨true, k, tr⟩
  | some currentSet =>
    let rulesToAdd := setDiff stateSet currentSet
    let rulesToRemove := setDiff currentSet stateSet
    let r := addDests oracle (ToIpvsService svc) rulesToAdd k tr
    if r.err then r
    else delDests oracle (ToIpvsService svc) rulesToRemove r.ker r.tr

/-- The final loop of `Sync`: destination reconciliation for every service of
the desired state, aborting on the first error. -/
def syncAllDests (oracle : Oracle) (st : State) :
    List Service → Kernel → List Event → Res
  | [], k, tr => ⟨false, k, tr⟩
  | s :: rest, k, tr =>
    let r := syncDestinations oracle st s k tr
    if r.err then r else syncAllDests oracle st rest r.ker r.tr

/-- The service-level `rulesToAdd` of `Sync`: desired minus current, over
normalized records. -/
def serviceRulesToAdd (st : State) (k : Kernel) : List Service :=
  setDiff (getStateServicesSet st) (getCurrentServicesSet k)

/-- The service-level `rulesToRemove` of `Sync`: current minus desired, over
normalized records. -/
def serviceRulesToRemove (st : State) (k : Kernel) : List Service :=
  setDiff (getCurrentServicesSet k) (getStateServicesSet st)

/-- `Sync`: one full reconciliation pass.  Snapshot the desired service set
and the kernel's service list, diff over normalized records, add the missing
services with their destinations, delete the stale services, then run
destination reconciliation for every desired service (the desired list is
queried from the provider a second time for this loop, as in the source). -/
def Sync (oracle : Oracle) (st : State) (k : Kernel) : Res :=
  let tr0 := [Event.callGetServices, Event.listServices]
  if oracle Event.listServices then ⟨true, k, tr0⟩
  else
    let r1 := addLoop oracle st (serviceRulesToAdd st k) k tr0
    if r1.err then r1
    else
      let r2 := delLoop oracle (serviceRulesToRemove st k) r1.ker r1.tr
      if r2.err then r2
      else syncAllDests oracle st st.GetServices r2.ker (r2.tr ++ [Event.callGetServices])

/-- Adapter calls, as opposed to provider queries. -/
def isAdapterCall : Event → Bool
  | Event.listServices => true
  | Event.getService _ => true
  | Event.addService _ => true
  | Event.delService _ => true
  | Event.addDest _ _ => true
  | Event.delDest _ _ => true
  | _ => false

/-- Adapter calls that mutate the kernel table. -/
def isMutationCall : Event → Bool
  | Event.addService _ => true
  | Event.delService _ => true
  | Event.addDest _ _ => true
  | Event.delDest _ _ => true
  | _ => false

/-- Replay of one traced event against a kernel table: a successful mutation
call applies its primitive, every other event leaves the table unchanged. -/
def applyEvent (oracle : Oracle) (k : Kernel) (e : Event) : Kernel :=
  if oracle e then k
  else
    match e with
    | Event.addService s => addService k s
    | Event.delService s => delService k s
    | Event.addDest s d => addDestination k s d
    | Event.delDest s d => delDestination k s d
    | _ => k

/-- Replay of a trace in order. -/
def applyEvents (oracle : Oracle) (k : Kernel) (l : List Event) : Kernel :=
  l.foldl (applyEvent oracle) k

/-! Section: Basic lemmas about the set model -/

theorem mem_insertU {α : Type} [DecidableEq α] {x y : α} {l : List α} :
    x ∈ insertU y l ↔ x = y ∨ x ∈ l := by
  unfold insertU
  by_cases h : y ∈ l
  · simp only [if_pos h]
    constructor
    · exact Or.inr
    · rintro (rfl | hx)
      · exact h
      · exact hx
  · simp [if_neg h, List.mem_append, or_comm]

theorem mem_foldl_insertU {α : Type} [DecidableEq α] (l acc : List α) (x : α) :
    x ∈ l.foldl (fun acc y => insertU y acc) acc ↔ x ∈ acc ∨ x ∈ l := by
  induction l generalizing acc with
  | nil => simp
  | cons y ys ih =>
    simp only [List.foldl_cons, ih, mem_insertU, List.mem_cons]
    tauto

theorem mem_mkSet {α : Type} [DecidableEq α] {x : α} {l : List α} :
    x ∈ mkSet l ↔ x ∈ l := by
  unfold mkSet
  rw [mem_foldl_insertU]
  simp

theorem mkSet_toFinset {α : Type} [DecidableEq α] (l : List α) :
    (mkSet l).toFinset = l.toFinset := by
  ext x
  simp [mem_mkSet]

theorem insertU_toFinset {α : Type} [DecidableEq α] (x : α) (l : List α) :
    (insertU x l).toFinset = insert x l.toFinset := by
  ext y
  simp [mem_insertU]

theorem mem_setDiff {α : Type} [DecidableEq α] {x : α} {a b : List α} :
    x ∈ setDiff a b ↔ x ∈ a ∧ x ∉ b := by
  simp [setDiff]

theorem setDiff_toFinset {α : Type} [DecidableEq α] (a b : List α) :
    (setDiff a b).toFinset = a.toFinset \ b.toFinset := by
  ext x
  simp [mem_setDiff]

theorem setDiff_eq_nil_iff {α : Type} [DecidableEq α] {a b : List α} :
    setDiff a b = [] ↔ ∀ x ∈ a, x ∈ b := by
  simp [setDiff, List.filter_eq_nil_iff]

theorem filter_ne_toFinset {α : Type} [DecidableEq α] (l : List α) (d : α) :
    (l.filter (fun x => x ≠ d)).toFinset = l.toFinset \ {d} := by
  ext x
  simp [List.mem_filter, and_comm]

/-! Section: Translator identities -/

theorem toIpvs_fromService (b : IpvsService) : ToIpvsService (FromService b) = b := rfl

theorem fromService_toIpvs (s : Service) :
    FromService (ToIpvsService s) = normalizeService s := rfl

theorem toIpvs_fromDest (b : IpvsDestination) : ToIpvsDestination (fromDestination b) = b := rfl

theorem fromDest_toIpvs (d : Destination) :
    fromDestination (ToIpvsDestination d) = normalizeDestination d := rfl

theorem normalizeService_idem (s : Service) :
    normalizeService (normalizeService s) = normalizeService s := rfl

theorem normalizeDestination_idem (d : Destination) :
    normalizeDestination (normalizeDestination d) = normalizeDestination d := rfl

theorem fromService_injective : Function.Injective FromService := by
  intro a b h
  have : ToIpvsService (FromService a) = ToIpvsService (FromService b) := by rw [h]
  simpa [toIpvs_fromService] using this

theorem fromDest_injective : Function.Injective fromDestination := by
  intro a b h
  have : ToIpvsDestination (fromDestination a) = ToIpvsDestination (fromDestination b) := by
    rw [h]
  simpa [toIpvs_fromDest] using this

/-! Section: The central set-algebra fact behind convergence

Adding `desired − current` and then removing `current − desired` turns the
kernel key set into exactly the desired key set. -/

theorem key_algebra {α β : Type} [DecidableEq α] [DecidableEq β]
    (toK : α → β) (frK : β → α) (hto : ∀ b, toK (frK b) = b)
    (A : Finset α) (hA : ∀ x ∈ A, frK (toK x) = x) (K : Finset β) :
    (K ∪ (A \ K.image frK).image toK) \ ((K.image frK \ A).image toK) = A.image toK := by
  ext b
  constructor
  · intro hb
    rcases Finset.mem_sdiff.mp hb with ⟨h1, h2⟩
    rcases Finset.mem_union.mp h1 with hK | hAdd
    · by_cases hfr : frK b ∈ A
      · exact Finset.mem_image.mpr ⟨frK b, hfr, hto b⟩
      · exact absurd (Finset.mem_image.mpr ⟨frK b,
          Finset.mem_sdiff.mpr ⟨Finset.mem_image.mpr ⟨b, hK, rfl⟩, hfr⟩, hto b⟩) h2
    · rcases Finset.mem_image.mp hAdd with ⟨x, hx, hxb⟩
      exact Finset.mem_image.mpr ⟨x, (Finset.mem_sdiff.mp hx).1, hxb⟩
  · intro hb
    rcases Finset.mem_image.mp hb with ⟨x, hxA, hxb⟩
    refine Finset.mem_sdiff.mpr ⟨?_, ?_⟩
    · by_cases hK : b ∈ K
      · exact Finset.mem_union.mpr (Or.inl hK)
      · refine Finset.mem_union.mpr (Or.inr (Finset.mem_image.mpr ⟨x, ?_, hxb⟩))
        refine Finset.mem_sdiff.mpr ⟨hxA, ?_⟩
        intro hxim
        rcases Finset.mem_image.mp hxim with ⟨c, hc, hfc⟩
        apply hK
        have hcb : c = b := by rw [← hto c, hfc, hxb]
        rw [← hcb]
        exact hc
    · intro hbad
      rcases Finset.mem_image.mp hbad with ⟨y, hy, hyb⟩
      rcases Finset.mem_sdiff.mp hy with ⟨hyim, hyA⟩
      rcases Finset.mem_image.mp hyim with ⟨c, hc, hfc⟩
      apply hyA
      have hcb : c = b := by rw [← hto c, hfc, hyb]
      have hyx : y = x := by rw [← hfc, hcb, ← hxb, hA x hxA]
      rw [hyx]
      exact hxA


/-! Section: Trace structure of the loops -/

/-- Every adapter call in the trace fragment succeeded. -/
def OkAll (oracle : Oracle) (l : List Event) : Prop :=
  ∀ e ∈ l, isAdapterCall e = true → oracle e = false

/-- The trace fragment ends at its first failed adapter call: every adapter
call before the last event succeeded, and the last event is an adapter
call (the one that failed). -/
def ErrShape (oracle : Oracle) (l : List Event) : Prop :=
  ∃ pre e, l = pre ++ [e] ∧ isAdapterCall e = true ∧ OkAll oracle pre

/-- Structure common to every inner loop of `Sync`: the trace grows by a
suffix free of `GetServices` provider queries, the resulting kernel is the
replay of the issued calls, on success every adapter call succeeded, and on
error the suffix stops at the first failed adapter call. -/
def LoopSpec (oracle : Oracle) (k : Kernel) (tr : List Event) (r : Res) : Prop :=
  ∃ suf, r.tr = tr ++ suf ∧ r.ker = applyEvents oracle k suf ∧
    Event.callGetServices ∉ suf ∧
    (r.err = false → OkAll oracle suf) ∧
    (r.err = true → ErrShape oracle suf)

theorem OkAll_nil (oracle : Oracle) : OkAll oracle [] := by
  intro e he
  cases he

theorem OkAll_cons {oracle : Oracle} {e : Event} {l : List Event}
    (h1 : isAdapterCall e = true → oracle e = false) (h2 : OkAll oracle l) :
    OkAll oracle (e :: l) := by
  intro x hx hAd
  rcases List.mem_cons.mp hx with rfl | hx
  · exact h1 hAd
  · exact h2 x hx hAd

theorem OkAll_append {oracle : Oracle} {l1 l2 : List Event}
    (h1 : OkAll oracle l1) (h2 : OkAll oracle l2) : OkAll oracle (l1 ++ l2) := by
  intro x hx hAd
  rcases List.mem_append.mp hx with hx | hx
  · exact h1 x hx hAd
  · exact h2 x hx hAd

theorem ErrShape_cons {oracle : Oracle} {e : Event} {l : List Event}
    (h1 : isAdapterCall e = true → oracle e = false) (h2 : ErrShape oracle l) :
    ErrShape oracle (e :: l) := by
  rcases h2 with ⟨pre, x, rfl, hAd, hOk⟩
  exact ⟨e :: pre, x, rfl, hAd, OkAll_cons h1 hOk⟩

theorem ErrShape_append_left {oracle : Oracle} {l1 l2 : List Event}
    (h1 : OkAll oracle l1) (h2 : ErrShape oracle l2) : ErrShape oracle (l1 ++ l2) := by
  rcases h2 with ⟨pre, x, rfl, hAd, hOk⟩
  exact ⟨l1 ++ pre, x, by simp, hAd, OkAll_append h1 hOk⟩

theorem applyEvents_nil (oracle : Oracle) (k : Kernel) : applyEvents oracle k [] = k := rfl

theorem applyEvents_cons (oracle : Oracle) (k : Kernel) (e : Event) (l : List Event) :
    applyEvents oracle k (e :: l) = applyEvents oracle (applyEvent oracle k e) l := rfl

theorem applyEvents_append (oracle : Oracle) (k : Kernel) (l1 l2 : List Event) :
    applyEvents oracle k (l1 ++ l2) = applyEvents oracle (applyEvents oracle k l1) l2 := by
  simp [applyEvents]

theorem applyEvent_read {oracle : Oracle} {k : Kernel} {e : Event}
    (h : isMutationCall e = false) : applyEvent oracle k e = k := by
  cases e <;> simp [isMutationCall] at h ⊢ <;> simp [applyEvent]

theorem isAdapterCall_not_callGetServices {e : Event} (h : isAdapterCall e = true) :
    e ≠ Event.callGetServices := by
  intro he
  subst he
  simp [isAdapterCall] at h

/-- A loop returning unchanged state and trace satisfies the loop spec. -/
theorem LoopSpec_done (oracle : Oracle) (k : Kernel) (tr : List Event) :
    LoopSpec oracle k tr ⟨false, k, tr⟩ := by
  refine ⟨[], by simp, rfl, by simp, fun _ => OkAll_nil oracle, fun h => ?_⟩
  simp at h

/-- A loop aborting on a failed adapter call that left the kernel unchanged
satisfies the loop spec. -/
theorem LoopSpec_fail (oracle : Oracle) (k : Kernel) (tr : List Event) (e : Event)
    (hAd : isAdapterCall e = true) (hk : applyEvent oracle k e = k) :
    LoopSpec oracle k tr ⟨true, k, tr ++ [e]⟩ := by
  refine ⟨[e], rfl, ?_, ?_, fun h => ?_, fun _ => ⟨[], e, rfl, hAd, OkAll_nil oracle⟩⟩
  · rw [applyEvents_cons, hk, applyEvents_nil]
  · intro h
    rw [← List.mem_singleton.mp h] at hAd
    simp [isAdapterCall] at hAd
  · simp at h

/-- Prepending one successful adapter call to a loop satisfying the spec. -/
theorem LoopSpec_step (oracle : Oracle) (k : Kernel) (tr : List Event) (e : Event) {r : Res}
    (hAd : isAdapterCall e = true) (hOk : oracle e = false)
    (h : LoopSpec oracle (applyEvent oracle k e) (tr ++ [e]) r) :
    LoopSpec oracle k tr r := by
  rcases h with ⟨suf, htr, hker, hGS, hok, herr⟩
  refine ⟨e :: suf, by simpa using htr, by rw [applyEvents_cons]; exact hker, ?_, ?_, ?_⟩
  · intro hmem
    rcases List.mem_cons.mp hmem with he | hmem
    · exact isAdapterCall_not_callGetServices hAd he.symm
    · exact hGS hmem
  · exact fun h0 => OkAll_cons (fun _ => hOk) (hok h0)
  · exact fun h1 => ErrShape_cons (fun _ => hOk) (herr h1)

/-- Prepending one provider query to a loop satisfying the spec. -/
theorem LoopSpec_provider (oracle : Oracle) (k : Kernel) (tr : List Event) (e : Event) {r : Res}
    (hAd : isAdapterCall e = false) (hMut : isMutationCall e = false)
    (hGS : e ≠ Event.callGetServices)
    (h : LoopSpec oracle k (tr ++ [e]) r) :
    LoopSpec oracle k tr r := by
  rcases h with ⟨suf, htr, hker, hGSm, hok, herr⟩
  refine ⟨e :: suf, by simpa using htr, ?_, ?_, ?_, ?_⟩
  · rw [applyEvents_cons, applyEvent_read hMut]
    exact hker
  · intro hmem
    rcases List.mem_cons.mp hmem with he | hmem
    · exact hGS he.symm
    · exact hGSm hmem
  · exact fun h0 => OkAll_cons (fun hbad => by rw [hAd] at hbad; cases hbad) (hok h0)
  · exact fun h1 => ErrShape_cons (fun hbad => by rw [hAd] at hbad; cases hbad) (herr h1)

/-- Sequencing two loops, the first of which succeeded. -/
theorem LoopSpec_seq {oracle : Oracle} {k : Kernel} {tr : List Event} {r1 r2 : Res}
    (h1 : LoopSpec oracle k tr r1) (he : r1.err = false)
    (h2 : LoopSpec oracle r1.ker r1.tr r2) :
    LoopSpec oracle k tr r2 := by
  rcases h1 with ⟨suf1, htr1, hker1, hGS1, hok1, _⟩
  rcases h2 with ⟨suf2, htr2, hker2, hGS2, hok2, herr2⟩
  refine ⟨suf1 ++ suf2, by rw [htr2, htr1, List.append_assoc], ?_, ?_, ?_, ?_⟩
  · rw [applyEvents_append, ← hker1]
    exact hker2
  · intro hmem
    rcases List.mem_append.mp hmem with hm | hm
    · exact hGS1 hm
    · exact hGS2 hm
  · exact fun h0 => OkAll_append (hok1 he) (hok2 h0)
  · exact fun h1 => ErrShape_append_left (hok1 he) (herr2 h1)

/-! Section: Loop specifications -/

theorem addDests_spec (oracle : Oracle) (isvc : IpvsService) (ds : List Destination)
    (k : Kernel) (tr : List Event) :
    LoopSpec oracle k tr (addDests oracle isvc ds k tr) := by
  induction ds generalizing k tr with
  | nil => exact LoopSpec_done oracle k tr
  | cons d rest ih =>
    by_cases h : oracle (Event.addDest isvc (ToIpvsDestination d))
    · have he : addDests oracle isvc (d :: rest) k tr =
          ⟨true, k, tr ++ [Event.addDest isvc (ToIpvsDestination d)]⟩ := by
        simp [addDests, h]
      rw [he]
      exact LoopSpec_fail oracle k tr (Event.addDest isvc (ToIpvsDestination d))
        (by simp [isAdapterCall]) (by simp [applyEvent, h])
    · have he : addDests oracle isvc (d :: rest) k tr =
          addDests oracle isvc rest (addDestination k isvc (ToIpvsDestination d))
            (tr ++ [Event.addDest isvc (ToIpvsDestination d)]) := by
        simp [addDests, h]
      rw [he]
      refine LoopSpec_step oracle k tr (Event.addDest isvc (ToIpvsDestination d))
        (by simp [isAdapterCall]) (by simpa using h) ?_
      have ha : applyEvent oracle k (Event.addDest isvc (ToIpvsDestination d)) =
          addDestination k isvc (ToIpvsDestination d) := by
        simp [applyEvent, h]
      rw [ha]
      exact ih _ _

theorem delDests_spec (oracle : Oracle) (isvc : IpvsService) (ds : List Destination)
    (k : Kernel) (tr : List Event) :
    LoopSpec oracle k tr (delDests oracle isvc ds k tr) := by
  induction ds generalizing k tr with
  | nil => exact LoopSpec_done oracle k tr
  | cons d rest ih =>
    by_cases h : oracle (Event.delDest isvc (ToIpvsDestination d))
    · have he : delDests oracle isvc (d :: rest) k tr =
          ⟨true, k, tr ++ [Event.delDest isvc (ToIpvsDestination d)]⟩ := by
        simp [delDests, h]
      rw [he]
      exact LoopSpec_fail oracle k tr (Event.delDest isvc (ToIpvsDestination d))
        (by simp [isAdapterCall]) (by simp [applyEvent, h])
    · have he : delDests oracle isvc (d :: rest) k tr =
          delDests oracle isvc rest (delDestination k isvc (ToIpvsDestination d))
            (tr ++ [Event.delDest isvc (ToIpvsDestination d)]) := by
        simp [delDests, h]
      rw [he]
      refine LoopSpec_step oracle k tr (Event.delDest isvc (ToIpvsDestination d))
        (by simp [isAdapterCall]) (by simpa using h) ?_
      have ha : applyEvent oracle k (Event.delDest isvc (ToIpvsDestination d)) =
          delDestination k isvc (ToIpvsDestination d) := by
        simp [applyEvent, h]
      rw [ha]
      exact ih _ _

theorem addServiceAndDestinations_spec (oracle : Oracle) (svc : Service)
    (dsts : List Destination) (k : Kernel) (tr : List Event) :
    LoopSpec oracle k tr (addServiceAndDestinations oracle svc dsts k tr) := by
  by_cases h : oracle (Event.addService (ToIpvsService svc))
  · have he : addServiceAndDestinations oracle svc dsts k tr =
        ⟨true, k, tr ++ [Event.addService (ToIpvsService svc)]⟩ := by
      simp [addServiceAndDestinations, h]
    rw [he]
    exact LoopSpec_fail oracle k tr (Event.addService (ToIpvsService svc))
      (by simp [isAdapterCall]) (by simp [applyEvent, h])
  · have he : addServiceAndDestinations oracle svc dsts k tr =
        addDests oracle (ToIpvsService svc) dsts (addService k (ToIpvsService svc))
          (tr ++ [Event.addService (ToIpvsService svc)]) := by
      simp [addServiceAndDestinations, h]
    rw [he]
    refine LoopSpec_step oracle k tr (Event.addService (ToIpvsService svc))
      (by simp [isAdapterCall]) (by simpa using h) ?_
    have ha : applyEvent oracle k (Event.addService (ToIpvsService svc)) =
        addService k (ToIpvsService svc) := by
      simp [applyEvent, h]
    rw [ha]
    exact addDests_spec _ _ _ _ _

theorem addLoop_spec (oracle : Oracle) (st : State) (l : List Service)
    (k : Kernel) (tr : List Event) :
    LoopSpec oracle k tr (addLoop oracle st l k tr) := by
  induction l generalizing k tr with
  | nil => exact LoopSpec_done oracle k tr
  | cons s rest ih =>
    have hr' : LoopSpec oracle k tr
        (addServiceAndDestinations oracle s (st.GetDestinations s) k
          (tr ++ [Event.callGetDestinations s])) :=
      LoopSpec_provider oracle k tr (Event.callGetDestinations s)
        (by simp [isAdapterCall]) (by simp [isMutationCall]) (by simp)
        (addServiceAndDestinations_spec _ _ _ _ _)
    by_cases he : (addServiceAndDestinations oracle s (st.GetDestinations s) k
        (tr ++ [Event.callGetDestinations s])).err
    · have hstep : addLoop oracle st (s :: rest) k tr =
          addServiceAndDestinations oracle s (st.GetDestinations s) k
            (tr ++ [Event.callGetDestinations s]) := by
        simp [addLoop, he]
      rw [hstep]
      exact hr'
    · have hstep : addLoop oracle st (s :: rest) k tr =
          addLoop oracle st rest
            (addServiceAndDestinations oracle s (st.GetDestinations s) k
              (tr ++ [Event.callGetDestinations s])).ker
            (addServiceAndDestinations oracle s (st.GetDestinations s) k
              (tr ++ [Event.callGetDestinations s])).tr := by
        simp [addLoop, he]
      rw [hstep]
      exact LoopSpec_seq hr' (by simpa using he) (ih _ _)

theorem delLoop_spec (oracle : Oracle) (l : List Service) (k : Kernel) (tr : List Event) :
    LoopSpec oracle k tr (delLoop oracle l k tr) := by
  induction l generalizing k tr with
  | nil => exact LoopSpec_done oracle k tr
  | cons s rest ih =>
    by_cases h : oracle (Event.delService (ToIpvsService s))
    · have he : delLoop oracle (s :: rest) k tr =
          ⟨true, k, tr ++ [Event.delService (ToIpvsService s)]⟩ := by
        simp [delLoop, h]
      rw [he]
      exact LoopSpec_fail oracle k tr (Event.delService (ToIpvsService s))
        (by simp [isAdapterCall]) (by simp [applyEvent, h])
    · have he : delLoop oracle (s :: rest) k tr =
          delLoop oracle rest (delService k (ToIpvsService s))
            (tr ++ [Event.delService (ToIpvsService s)]) := by
        simp [delLoop, h]
      rw [he]
      refine LoopSpec_step oracle k tr (Event.delService (ToIpvsService s))
        (by simp [isAdapterCall]) (by simpa using h) ?_
      have ha : applyEvent oracle k (Event.delService (ToIpvsService s)) =
          delService k (ToIpvsService s) := by
        simp [applyEvent, h]
      rw [ha]
      exact ih _ _

theorem syncDestinations_spec (oracle : Oracle) (st : State) (svc : Service)
    (k : Kernel) (tr : List Event) :
    LoopSpec oracle k tr (syncDestinations oracle st svc k tr) := by
  by_cases hb : oracle (Event.getService (ToIpvsService svc))
  · have he : syncDestinations oracle st svc k tr =
        ⟨true, k, (tr ++ [Event.callGetDestinations svc]) ++
          [Event.getService (ToIpvsService svc)]⟩ := by
      simp [syncDestinations, hb]
    rw [he]
    refine LoopSpec_provider oracle k tr (Event.callGetDestinations svc)
      (by simp [isAdapterCall]) (by simp [isMutationCall]) (by simp) ?_
    exact LoopSpec_fail oracle k _ (Event.getService (ToIpvsService svc))
      (by simp [isAdapterCall]) (applyEvent_read (by simp [isMutationCall]))
  · cases hg : getCurrentDestinationsSet k svc with
    | none =>
      have he : syncDestinations oracle st svc k tr =
          ⟨true, k, (tr ++ [Event.callGetDestinations svc]) ++
            [Event.getService (ToIpvsService svc)]⟩ := by
        simp [syncDestinations, hb, hg]
      rw [he]
      refine LoopSpec_provider oracle k tr (Event.callGetDestinations svc)
        (by simp [isAdapterCall]) (by simp [isMutationCall]) (by simp) ?_
      exact LoopSpec_fail oracle k _ (Event.getService (ToIpvsService svc))
        (by simp [isAdapterCall]) (applyEvent_read (by simp [isMutationCall]))
    | some cur =>
      have he : syncDestinations oracle st svc k tr =
          (if (addDests oracle (ToIpvsService svc)
                (setDiff (getStateDestinationsSet st svc) cur) k
                ((tr ++ [Event.callGetDestinations svc]) ++
                  [Event.getService (ToIpvsService svc)])).err = true
            then addDests oracle (ToIpvsService svc)
                (setDiff (getStateDestinationsSet st svc) cur) k
                ((tr ++ [Event.callGetDestinations svc]) ++
                  [Event.getService (ToIpvsService svc)])
            else delDests oracle (ToIpvsService svc)
                (setDiff cur (getStateDestinationsSet st svc))
                (addDests oracle (ToIpvsService svc)
                  (setDiff (getStateDestinationsSet st svc) cur) k
                  ((tr ++ [Event.callGetDestinations svc]) ++
                    [Event.getService (ToIpvsService svc)])).ker
                (addDests oracle (ToIpvsService svc)
                  (setDiff (getStateDestinationsSet st svc) cur) k
                  ((tr ++ [Event.callGetDestinations svc]) ++
                    [Event.getService (ToIpvsService svc)])).tr) := by
        simp [syncDestinations, hb, hg]
      rw [he]
      refine LoopSpec_provider oracle k tr (Event.callGetDestinations svc)
        (by simp [isAdapterCall]) (by simp [isMutationCall]) (by simp) ?_
      refine LoopSpec_step oracle k (tr ++ [Event.callGetDestinations svc])
        (Event.getService (ToIpvsService svc))
        (by simp [isAdapterCall]) (by simpa using hb) ?_
      rw [applyEvent_read (by simp [isMutationCall])]
      by_cases herr : (addDests oracle (ToIpvsService svc)
          (setDiff (getStateDestinationsSet st svc) cur) k
          ((tr ++ [Event.callGetDestinations svc]) ++
            [Event.getService (ToIpvsService svc)])).err
    -- success and failure of the destination-add loop
      · rw [if_pos herr]
        exact addDests_spec _ _ _ _ _
      · rw [if_neg (by simpa using herr)]
        exact LoopSpec_seq (addDests_spec _ _ _ _ _) (by simpa using herr)
          (delDests_spec _ _ _ _ _)

theorem syncAllDests_spec (oracle : Oracle) (st : State) (l : List Service)
    (k : Kernel) (tr : List Event) :
    LoopSpec oracle k tr (syncAllDests oracle st l k tr) := by
  induction l generalizing k tr with
  | nil => exact LoopSpec_done oracle k tr
  | cons s rest ih =>
    by_cases he : (syncDestinations oracle st s k tr).err
    · have hstep : syncAllDests oracle st (s :: rest) k tr =
          syncDestinations oracle st s k tr := by
        simp [syncAllDests, he]
      rw [hstep]
      exact syncDestinations_spec _ _ _ _ _
    · have hstep : syncAllDests oracle st (s :: rest) k tr =
          syncAllDests oracle st rest (syncDestinations oracle st s k tr).ker
            (syncDestinations oracle st s k tr).tr := by
        simp [syncAllDests, he]
      rw [hstep]
      exact LoopSpec_seq (syncDestinations_spec _ _ _ _ _) (by simpa using he) (ih _ _)

/-! Section: The master structure theorem for a full pass -/

theorem applyEvents_startTrace (oracle : Oracle) (k : Kernel) :
    applyEvents oracle k [Event.callGetServices, Event.listServices] = k := by
  rw [applyEvents_cons, applyEvent_read (by simp [isMutationCall]),
    applyEvents_cons, applyEvent_read (by simp [isMutationCall]), applyEvents_nil]

theorem applyEvents_singleGS (oracle : Oracle) (k : Kernel) :
    applyEvents oracle k [Event.callGetServices] = k := by
  rw [applyEvents_cons, applyEvent_read (by simp [isMutationCall]), applyEvents_nil]

theorem OkAll_startTrace {oracle : Oracle} (h : oracle Event.listServices = false) :
    OkAll oracle [Event.callGetServices, Event.listServices] := by
  intro e he _
  rcases List.mem_cons.mp he with rfl | he
  · simp [isAdapterCall] at *
  · rw [List.mem_singleton.mp he]
    exact h

theorem OkAll_singleGS (oracle : Oracle) : OkAll oracle [Event.callGetServices] := by
  intro e he hAd
  rw [List.mem_singleton.mp he] at hAd
  simp [isAdapterCall] at hAd

/-- Glue for a pass that aborted in the service-level phase. -/
theorem Sync_glue_abort (oracle : Oracle) (k : Kernel) {r : Res}
    (spec : LoopSpec oracle k [Event.callGetServices, Event.listServices] r)
    (hls : oracle Event.listServices = false) :
    r.ker = applyEvents oracle k r.tr ∧
    (r.err = false → OkAll oracle r.tr) ∧
    (r.err = true → ErrShape oracle r.tr) := by
  rcases spec with ⟨suf, htr, hker, _, hok, herr⟩
  refine ⟨?_, ?_, ?_⟩
  · rw [htr, applyEvents_append, applyEvents_startTrace]
    exact hker
  · intro h0
    rw [htr]
    exact OkAll_append (OkAll_startTrace hls) (hok h0)
  · intro h1
    rw [htr]
    exact ErrShape_append_left (OkAll_startTrace hls) (herr h1)

/-- Glue for a pass that reached the destination-reconciliation phase. -/
theorem Sync_glue (oracle : Oracle) (k : Kernel) {r2 r3 : Res}
    (spec12 : LoopSpec oracle k [Event.callGetServices, Event.listServices] r2)
    (h2 : r2.err = false)
    (spec3 : LoopSpec oracle r2.ker (r2.tr ++ [Event.callGetServices]) r3)
    (hls : oracle Event.listServices = false) :
    r3.ker = applyEvents oracle k r3.tr ∧
    (r3.err = false → OkAll oracle r3.tr ∧
      r3.tr.count Event.callGetServices = 2) ∧
    (r3.err = true → ErrShape oracle r3.tr) := by
  rcases spec12 with ⟨suf12, htr12, hker12, hGS12, hok12, _⟩
  rcases spec3 with ⟨suf3, htr3, hker3, hGS3, hok3, herr3⟩
  have htr : r3.tr = [Event.callGetServices, Event.listServices] ++
      (suf12 ++ ([Event.callGetServices] ++ suf3)) := by
    rw [htr3, htr12]
    simp
  refine ⟨?_, ?_, ?_⟩
  · rw [htr, applyEvents_append, applyEvents_startTrace, applyEvents_append,
      applyEvents_append, applyEvents_singleGS, ← hker12]
    exact hker3
  · intro h0
    constructor
    · rw [htr]
      exact OkAll_append (OkAll_startTrace hls) (OkAll_append (hok12 h2)
        (OkAll_append (OkAll_singleGS oracle) (hok3 h0)))
    · rw [htr]
      have c12 : suf12.count Event.callGetServices = 0 := List.count_eq_zero.mpr hGS12
      have c3 : suf3.count Event.callGetServices = 0 := List.count_eq_zero.mpr hGS3
      simp [List.count_append, c12, c3, List.count_cons]
  · intro h1
    rw [htr]
    exact ErrShape_append_left (OkAll_startTrace hls) (ErrShape_append_left (hok12 h2)
      (ErrShape_append_left (OkAll_singleGS oracle) (herr3 h1)))

/-- Structure of every full pass: the resulting kernel is the replay of the
pass's own trace (so nothing applied earlier is ever rolled back), a
successful pass had every adapter call succeed and queried `GetServices`
exactly twice, and a failed pass stops at its first failed adapter call. -/
theorem Sync_master (oracle : Oracle) (st : State) (k : Kernel) :
    (Sync oracle st k).ker = applyEvents oracle k (Sync oracle st k).tr ∧
    ((Sync oracle st k).err = false → OkAll oracle (Sync oracle st k).tr ∧
      (Sync oracle st k).tr.count Event.callGetServices = 2) ∧
    ((Sync oracle st k).err = true → ErrShape oracle (Sync oracle st k).tr) := by
  by_cases hls : oracle Event.listServices
  · have he : Sync oracle st k =
        ⟨true, k, [Event.callGetServices, Event.listServices]⟩ := by
      simp [Sync, hls]
    rw [he]
    refine ⟨(applyEvents_startTrace oracle k).symm, ?_, ?_⟩
    · intro h0
      simp at h0
    · intro _
      refine ⟨[Event.callGetServices], Event.listServices, rfl, by simp [isAdapterCall], ?_⟩
      exact OkAll_singleGS oracle
  · have hls' : oracle Event.listServices = false := by simpa using hls
    have spec1 : LoopSpec oracle k [Event.callGetServices, Event.listServices]
        (addLoop oracle st (serviceRulesToAdd st k) k
          [Event.callGetServices, Event.listServices]) :=
      addLoop_spec _ _ _ _ _
    by_cases h1 : (addLoop oracle st (serviceRulesToAdd st k) k
        [Event.callGetServices, Event.listServices]).err
    · have he : Sync oracle st k = addLoop oracle st (serviceRulesToAdd st k) k
          [Event.callGetServices, Event.listServices] := by
        simp [Sync, hls, h1]
      rw [he]
      rcases Sync_glue_abort oracle k spec1 hls' with ⟨a, b, c⟩
      exact ⟨a, fun h0 => absurd h1 (by simp [h0]), c⟩
    · have spec12 : LoopSpec oracle k [Event.callGetServices, Event.listServices]
          (delLoop oracle (serviceRulesToRemove st k)
            (addLoop oracle st (serviceRulesToAdd st k) k
              [Event.callGetServices, Event.listServices]).ker
            (addLoop oracle st (serviceRulesToAdd st k) k
              [Event.callGetServices, Event.listServices]).tr) :=
        LoopSpec_seq spec1 (by simpa using h1) (delLoop_spec _ _ _ _)
      by_cases h2 : (delLoop oracle (serviceRulesToRemove st k)
          (addLoop oracle st (serviceRulesToAdd st k) k
            [Event.callGetServices, Event.listServices]).ker
          (addLoop oracle st (serviceRulesToAdd st k) k
            [Event.callGetServices, Event.listServices]).tr).err
      · have he : Sync oracle st k = delLoop oracle (serviceRulesToRemove st k)
            (addLoop oracle st (serviceRulesToAdd st k) k
              [Event.callGetServices, Event.listServices]).ker
            (addLoop oracle st (serviceRulesToAdd st k) k
              [Event.callGetServices, Event.listServices]).tr := by
          simp [Sync, hls, h1, h2]
        rw [he]
        rcases Sync_glue_abort oracle k spec12 hls' with ⟨a, b, c⟩
        exact ⟨a, fun h0 => absurd h2 (by simp [h0]), c⟩
      · have he : Sync oracle st k = syncAllDests oracle st st.GetServices
            (delLoop oracle (serviceRulesToRemove st k)
              (addLoop oracle st (serviceRulesToAdd st k) k
                [Event.callGetServices, Event.listServices]).ker
              (addLoop oracle st (serviceRulesToAdd st k) k
                [Event.callGetServices, Event.listServices]).tr).ker
            ((delLoop oracle (serviceRulesToRemove st k)
              (addLoop oracle st (serviceRulesToAdd st k) k
                [Event.callGetServices, Event.listServices]).ker
              (addLoop oracle st (serviceRulesToAdd st k) k
                [Event.callGetServices, Event.listServices]).tr).tr ++
              [Event.callGetServices]) := by
          simp [Sync, hls, h1, h2]
        rw [he]
        exact Sync_glue oracle k spec12 (by simpa using h2)
          (syncAllDests_spec _ _ _ _ _) hls'

/-! Section: Kernel characterization of successful loops -/

theorem addService_services_toFinset (k : Kernel) (s : IpvsService) :
    (addService k s).services.toFinset = insert s k.services.toFinset := by
  unfold addService
  by_cases h : s ∈ k.services
  · rw [if_pos h]
    exact (Finset.insert_eq_self.mpr (List.mem_toFinset.mpr h)).symm
  · rw [if_neg h]
    ext x
    simp [or_comm]

theorem delService_services_toFinset (k : Kernel) (s : IpvsService) :
    (delService k s).services.toFinset = k.services.toFinset \ {s} :=
  filter_ne_toFinset _ _

theorem addDests_ok (oracle : Oracle) (isvc : IpvsService) (ds : List Destination)
    (k : Kernel) (tr : List Event)
    (h : (addDests oracle isvc ds k tr).err = false) :
    (addDests oracle isvc ds k tr).ker.services = k.services ∧
    ((addDests oracle isvc ds k tr).ker.dests isvc).toFinset =
      (k.dests isvc).toFinset ∪ (ds.map ToIpvsDestination).toFinset ∧
    ∀ t, t ≠ isvc → (addDests oracle isvc ds k tr).ker.dests t = k.dests t := by
  induction ds generalizing k tr with
  | nil =>
    refine ⟨rfl, by simp [addDests], fun t _ => rfl⟩
  | cons d rest ih =>
    by_cases he : oracle (Event.addDest isvc (ToIpvsDestination d))
    · rw [show addDests oracle isvc (d :: rest) k tr =
          ⟨true, k, tr ++ [Event.addDest isvc (ToIpvsDestination d)]⟩ from by
        simp [addDests, he]] at h
      simp at h
    · have hr : addDests oracle isvc (d :: rest) k tr =
          addDests oracle isvc rest (addDestination k isvc (ToIpvsDestination d))
            (tr ++ [Event.addDest isvc (ToIpvsDestination d)]) := by
        simp [addDests, he]
      rw [hr] at h ⊢
      rcases ih _ _ h with ⟨h1, h2, h3⟩
      refine ⟨h1, ?_, ?_⟩
      · rw [h2]
        have hd : (addDestination k isvc (ToIpvsDestination d)).dests isvc =
            insertU (ToIpvsDestination d) (k.dests isvc) := by
          simp [addDestination]
        rw [hd, insertU_toFinset]
        ext x
        simp
      · intro t ht
        rw [h3 t ht]
        simp [addDestination, ht]

theorem delDests_ok (oracle : Oracle) (isvc : IpvsService) (ds : List Destination)
    (k : Kernel) (tr : List Event)
    (h : (delDests oracle isvc ds k tr).err = false) :
    (delDests oracle isvc ds k tr).ker.services = k.services ∧
    ((delDests oracle isvc ds k tr).ker.dests isvc).toFinset =
      (k.dests isvc).toFinset \ (ds.map ToIpvsDestination).toFinset ∧
    ∀ t, t ≠ isvc → (delDests oracle isvc ds k tr).ker.dests t = k.dests t := by
  induction ds generalizing k tr with
  | nil =>
    refine ⟨rfl, by simp [delDests], fun t _ => rfl⟩
  | cons d rest ih =>
    by_cases he : oracle (Event.delDest isvc (ToIpvsDestination d))
    · rw [show delDests oracle isvc (d :: rest) k tr =
          ⟨true, k, tr ++ [Event.delDest isvc (ToIpvsDestination d)]⟩ from by
        simp [delDests, he]] at h
      simp at h
    · have hr : delDests oracle isvc (d :: rest) k tr =
          delDests oracle isvc rest (delDestination k isvc (ToIpvsDestination d))
            (tr ++ [Event.delDest isvc (ToIpvsDestination d)]) := by
        simp [delDests, he]
      rw [hr] at h ⊢
      rcases ih _ _ h with ⟨h1, h2, h3⟩
      refine ⟨h1, ?_, ?_⟩
      · rw [h2]
        have hd : (delDestination k isvc (ToIpvsDestination d)).dests isvc =
            (k.dests isvc).filter (fun x => x ≠ ToIpvsDestination d) := by
          simp [delDestination]
        rw [hd, filter_ne_toFinset]
        ext x
        simp
        tauto
      · intro t ht
        rw [h3 t ht]
        simp [delDestination, ht]

theorem addServiceAndDestinations_ok (oracle : Oracle) (svc : Service)
    (dsts : List Destination) (k : Kernel) (tr : List Event)
    (h : (addServiceAndDestinations oracle svc dsts k tr).err = false) :
    (addServiceAndDestinations oracle svc dsts k tr).ker.services.toFinset =
      insert (ToIpvsService svc) k.services.toFinset := by
  by_cases he : oracle (Event.addService (ToIpvsService svc))
  · rw [show addServiceAndDestinations oracle svc dsts k tr =
        ⟨true, k, tr ++ [Event.addService (ToIpvsService svc)]⟩ from by
      simp [addServiceAndDestinations, he]] at h
    simp at h
  · have hr : addServiceAndDestinations oracle svc dsts k tr =
        addDests oracle (ToIpvsService svc) dsts (addService k (ToIpvsService svc))
          (tr ++ [Event.addService (ToIpvsService svc)]) := by
      simp [addServiceAndDestinations, he]
    rw [hr] at h ⊢
    rw [(addDests_ok _ _ _ _ _ h).1]
    exact addService_services_toFinset k (ToIpvsService svc)

theorem addLoop_ok (oracle : Oracle) (st : State) (l : List Service)
    (k : Kernel) (tr : List Event)
    (h : (addLoop oracle st l k tr).err = false) :
    (addLoop oracle st l k tr).ker.services.toFinset =
      k.services.toFinset ∪ (l.map ToIpvsService).toFinset := by
  induction l generalizing k tr with
  | nil => simp [addLoop]
  | cons s rest ih =>
    by_cases he : (addServiceAndDestinations oracle s (st.GetDestinations s) k
        (tr ++ [Event.callGetDestinations s])).err
    · rw [show addLoop oracle st (s :: rest) k tr =
          addServiceAndDestinations oracle s (st.GetDestinations s) k
            (tr ++ [Event.callGetDestinations s]) from by simp [addLoop, he]] at h
      rw [h] at he
      cases he
    · have hr : addLoop oracle st (s :: rest) k tr =
          addLoop oracle st rest
            (addServiceAndDestinations oracle s (st.GetDestinations s) k
              (tr ++ [Event.callGetDestinations s])).ker
            (addServiceAndDestinations oracle s (st.GetDestinations s) k
              (tr ++ [Event.callGetDestinations s])).tr := by
        simp [addLoop, he]
      rw [hr] at h ⊢
      rw [ih _ _ h, addServiceAndDestinations_ok oracle s (st.GetDestinations s) k _
        (by simpa using he)]
      ext x
      simp

theorem delLoop_ok (oracle : Oracle) (l : List Service) (k : Kernel) (tr : List Event)
    (h : (delLoop oracle l k tr).err = false) :
    (delLoop oracle l k tr).ker.services.toFinset =
      k.services.toFinset \ (l.map ToIpvsService).toFinset := by
  induction l generalizing k tr with
  | nil => simp [delLoop]
  | cons s rest ih =>
    by_cases he : oracle (Event.delService (ToIpvsService s))
    · rw [show delLoop oracle (s :: rest) k tr =
          ⟨true, k, tr ++ [Event.delService (ToIpvsService s)]⟩ from by
        simp [delLoop, he]] at h
      simp at h
    · have hr : delLoop oracle (s :: rest) k tr =
          delLoop oracle rest (delService k (ToIpvsService s))
            (tr ++ [Event.delService (ToIpvsService s)]) := by
        simp [delLoop, he]
      rw [hr] at h ⊢
      rw [ih _ _ h, delService_services_toFinset]
      ext x
      simp
      tauto

/-! Section: Set views of the snapshot functions -/

theorem toFinset_map_eq {α β : Type} [DecidableEq α] [DecidableEq β] (f : α → β)
    (l : List α) : (l.map f).toFinset = l.toFinset.image f := by
  ext x
  simp

theorem getStateServicesSet_toFinset (st : State) :
    (getStateServicesSet st).toFinset = (st.GetServices.map normalizeService).toFinset :=
  mkSet_toFinset _

theorem getCurrentServicesSet_toFinset (k : Kernel) :
    (getCurrentServicesSet k).toFinset = k.services.toFinset.image FromService := by
  rw [getCurrentServicesSet, mkSet_toFinset, toFinset_map_eq]

theorem getStateDestinationsSet_toFinset (st : State) (svc : Service) :
    (getStateDestinationsSet st svc).toFinset =
      ((st.GetDestinations svc).map normalizeDestination).toFinset :=
  mkSet_toFinset _

theorem getCurrentDestinationsSet_some {k : Kernel} {svc : Service} {cur : List Destination}
    (h : getCurrentDestinationsSet k svc = some cur) :
    cur.toFinset = ((k.dests (ToIpvsService svc)).toFinset).image fromDestination := by
  unfold getCurrentDestinationsSet getService at h
  by_cases hm : ToIpvsService svc ∈ k.services
  · rw [if_pos hm] at h
    simp only [Option.map_some'] at h
    rw [← Option.some_inj.mp h, mkSet_toFinset, toFinset_map_eq]
  · rw [if_neg hm] at h
    simp at h

theorem normalized_mem_services {st : State} {x : Service}
    (hx : x ∈ (st.GetServices.map normalizeService).toFinset) :
    FromService (ToIpvsService x) = x := by
  rcases List.mem_map.mp (List.mem_toFinset.mp hx) with ⟨s, _, rfl⟩
  rw [fromService_toIpvs, normalizeService_idem]

theorem normalized_mem_dests {st : State} {svc : Service} {x : Destination}
    (hx : x ∈ ((st.GetDestinations svc).map normalizeDestination).toFinset) :
    fromDestination (ToIpvsDestination x) = x := by
  rcases List.mem_map.mp (List.mem_toFinset.mp hx) with ⟨d, _, rfl⟩
  rw [fromDest_toIpvs, normalizeDestination_idem]

/-! Section: Convergence of the destination phase -/

theorem syncDestinations_ok (oracle : Oracle) (st : State) (svc : Service)
    (k : Kernel) (tr : List Event)
    (h : (syncDestinations oracle st svc k tr).err = false) :
    (syncDestinations oracle st svc k tr).ker.services = k.services ∧
    ((syncDestinations oracle st svc k tr).ker.dests (ToIpvsService svc)).toFinset =
      (((st.GetDestinations svc).map normalizeDestination).toFinset).image
        ToIpvsDestination ∧
    ∀ t, t ≠ ToIpvsService svc →
      (syncDestinations oracle st svc k tr).ker.dests t = k.dests t := by
  by_cases hb : oracle (Event.getService (ToIpvsService svc))
  · rw [show syncDestinations oracle st svc k tr =
        ⟨true, k, (tr ++ [Event.callGetDestinations svc]) ++
          [Event.getService (ToIpvsService svc)]⟩ from by
      simp [syncDestinations, hb]] at h
    simp at h
  · cases hg : getCurrentDestinationsSet k svc with
    | none =>
      rw [show syncDestinations oracle st svc k tr =
          ⟨true, k, (tr ++ [Event.callGetDestinations svc]) ++
            [Event.getService (ToIpvsService svc)]⟩ from by
        simp [syncDestinations, hb, hg]] at h
      simp at h
    | some cur =>
      have hr : syncDestinations oracle st svc k tr =
          (if (addDests oracle (ToIpvsService svc)
                (setDiff (getStateDestinationsSet st svc) cur) k
                ((tr ++ [Event.callGetDestinations svc]) ++
                  [Event.getService (ToIpvsService svc)])).err = true
            then addDests oracle (ToIpvsService svc)
                (setDiff (getStateDestinationsSet st svc) cur) k
                ((tr ++ [Event.callGetDestinations svc]) ++
                  [Event.getService (ToIpvsService svc)])
            else delDests oracle (ToIpvsService svc)
                (setDiff cur (getStateDestinationsSet st svc))
                (addDests oracle (ToIpvsService svc)
                  (setDiff (getStateDestinationsSet st svc) cur) k
                  ((tr ++ [Event.callGetDestinations svc]) ++
                    [Event.getService (ToIpvsService svc)])).ker
                (addDests oracle (ToIpvsService svc)
                  (setDiff (getStateDestinationsSet st svc) cur) k
                  ((tr ++ [Event.callGetDestinations svc]) ++
                    [Event.getService (ToIpvsService svc)])).tr) := by
        simp [syncDestinations, hb, hg]
      rw [hr] at h ⊢
      by_cases ha : (addDests oracle (ToIpvsService svc)
          (setDiff (getStateDestinationsSet st svc) cur) k
          ((tr ++ [Event.callGetDestinations svc]) ++
            [Event.getService (ToIpvsService svc)])).err
      · rw [if_pos ha] at h
        rw [h] at ha
        simp at ha
      · rw [if_neg ha] at h ⊢
        rcases delDests_ok _ _ _ _ _ h with ⟨d1, d2, d3⟩
        rcases addDests_ok _ _ _ _ _ (by rw [Bool.not_eq_true] at ha; exact ha)
          with ⟨a1, a2, a3⟩
        refine ⟨by rw [d1, a1], ?_, ?_⟩
        · rw [d2, a2, toFinset_map_eq, toFinset_map_eq, setDiff_toFinset, setDiff_toFinset,
            getStateDestinationsSet_toFinset, getCurrentDestinationsSet_some hg]
          exact key_algebra ToIpvsDestination fromDestination toIpvs_fromDest _
            (fun x hx => normalized_mem_dests hx) _
        · intro t ht
          rw [d3 t ht, a3 t ht]

theorem syncAllDests_ok (oracle : Oracle) (st : State) (L : List Service)
    (k : Kernel) (tr : List Event) :
    (syncAllDests oracle st L k tr).err = false →
    (L.map normalizeService).Nodup →
    (syncAllDests oracle st L k tr).ker.services = k.services ∧
    (∀ s ∈ L, ((syncAllDests oracle st L k tr).ker.dests (ToIpvsService s)).toFinset =
      (((st.GetDestinations s).map normalizeDestination).toFinset).image
        ToIpvsDestination) ∧
    ∀ t, t ∉ L.map ToIpvsService →
      (syncAllDests oracle st L k tr).ker.dests t = k.dests t := by
  induction L generalizing k tr with
  | nil =>
    intro _ _
    exact ⟨rfl, by simp, fun t _ => rfl⟩
  | cons s rest ih =>
    intro h hnd
    rw [List.map_cons, List.nodup_cons] at hnd
    rcases hnd with ⟨hhead, htail⟩
    by_cases he : (syncDestinations oracle st s k tr).err
    · rw [show syncAllDests oracle st (s :: rest) k tr =
          syncDestinations oracle st s k tr from by simp [syncAllDests, he]] at h
      rw [h] at he
      cases he
    · have hr : syncAllDests oracle st (s :: rest) k tr =
          syncAllDests oracle st rest (syncDestinations oracle st s k tr).ker
            (syncDestinations oracle st s k tr).tr := by
        simp [syncAllDests, he]
      rw [hr] at h ⊢
      rcases syncDestinations_ok oracle st s k tr (by simpa using he) with ⟨s1, s2, s3⟩
      rcases ih _ _ h htail with ⟨i1, i2, i3⟩
      refine ⟨by rw [i1, s1], ?_, ?_⟩
      · intro x hx
        rcases List.mem_cons.mp hx with rfl | hx
        · have hkey : ToIpvsService x ∉ rest.map ToIpvsService := by
            intro hmem
            apply hhead
            rcases List.mem_map.mp hmem with ⟨s', hs', hk⟩
            refine List.mem_map.mpr ⟨s', hs', ?_⟩
            rw [← fromService_toIpvs, hk, fromService_toIpvs]
          rw [i3 _ hkey]
          exact s2
        · exact i2 x hx
      · intro t ht
        have ht1 : t ≠ ToIpvsService s := by
          intro hteq
          exact ht (by rw [hteq, List.map_cons]; exact List.mem_cons_self _ _)
        have ht2 : t ∉ rest.map ToIpvsService := by
          intro hmem
          exact ht (by rw [List.map_cons]; exact List.mem_cons.mpr (Or.inr hmem))
        rw [i3 t ht2, s3 t ht1]

/-! Section: Convergence of a successful pass -/

theorem Sync_ok (oracle : Oracle) (st : State) (k : Kernel)
    (hnd : (st.GetServices.map normalizeService).Nodup)
    (h : (Sync oracle st k).err = false) :
    (Sync oracle st k).ker.services.toFinset =
      ((st.GetServices.map normalizeService).toFinset).image ToIpvsService ∧
    ∀ s ∈ st.GetServices,
      ((Sync oracle st k).ker.dests (ToIpvsService s)).toFinset =
        (((st.GetDestinations s).map normalizeDestination).toFinset).image
          ToIpvsDestination := by
  by_cases hls : oracle Event.listServices
  · rw [show Sync oracle st k =
        ⟨true, k, [Event.callGetServices, Event.listServices]⟩ from by
      simp [Sync, hls]] at h
    simp at h
  · by_cases h1 : (addLoop oracle st (serviceRulesToAdd st k) k
        [Event.callGetServices, Event.listServices]).err
    · rw [show Sync oracle st k = addLoop oracle st (serviceRulesToAdd st k) k
          [Event.callGetServices, Event.listServices] from by simp [Sync, hls, h1]] at h
      rw [h] at h1
      cases h1
    · by_cases h2 : (delLoop oracle (serviceRulesToRemove st k)
          (addLoop oracle st (serviceRulesToAdd st k) k
            [Event.callGetServices, Event.listServices]).ker
          (addLoop oracle st (serviceRulesToAdd st k) k
            [Event.callGetServices, Event.listServices]).tr).err
      · rw [show Sync oracle st k = delLoop oracle (serviceRulesToRemove st k)
            (addLoop oracle st (serviceRulesToAdd st k) k
              [Event.callGetServices, Event.listServices]).ker
            (addLoop oracle st (serviceRulesToAdd st k) k
              [Event.callGetServices, Event.listServices]).tr from by
          simp [Sync, hls, h1, h2]] at h
        rw [h] at h2
        cases h2
      · rw [show Sync oracle st k = syncAllDests oracle st st.GetServices
            (delLoop oracle (serviceRulesToRemove st k)
              (addLoop oracle st (serviceRulesToAdd st k) k
                [Event.callGetServices, Event.listServices]).ker
              (addLoop oracle st (serviceRulesToAdd st k) k
                [Event.callGetServices, Event.listServices]).tr).ker
            ((delLoop oracle (serviceRulesToRemove st k)
              (addLoop oracle st (serviceRulesToAdd st k) k
                [Event.callGetServices, Event.listServices]).ker
              (addLoop oracle st (serviceRulesToAdd st k) k
                [Event.callGetServices, Event.listServices]).tr).tr ++
              [Event.callGetServices]) from by simp [Sync, hls, h1, h2]] at h ⊢
        rcases syncAllDests_ok oracle st st.GetServices _ _ h hnd with ⟨g1, g2, g3⟩
        constructor
        · rw [g1, delLoop_ok _ _ _ _ (by rw [Bool.not_eq_true] at h2; exact h2),
            addLoop_ok _ _ _ _ _ (by rw [Bool.not_eq_true] at h1; exact h1),
            toFinset_map_eq, toFinset_map_eq, serviceRulesToAdd, serviceRulesToRemove,
            setDiff_toFinset, setDiff_toFinset, getStateServicesSet_toFinset,
            getCurrentServicesSet_toFinset]
          exact key_algebra ToIpvsService FromService toIpvs_fromService _
            (fun x hx => normalized_mem_services hx) _
        · exact g2

/-! Section: Membership of events in the traces -/

theorem mem_tr_of_spec {oracle : Oracle} {k : Kernel} {tr : List Event} {r : Res}
    (spec : LoopSpec oracle k tr r) {e : Event} (he : e ∈ tr) : e ∈ r.tr := by
  rcases spec with ⟨suf, htr, _⟩
  rw [htr]
  exact List.mem_append.mpr (Or.inl he)

theorem addServiceAndDestinations_events (oracle : Oracle) (svc : Service)
    (dsts : List Destination) (k : Kernel) (tr : List Event) :
    Event.addService (ToIpvsService svc) ∈
      (addServiceAndDestinations oracle svc dsts k tr).tr := by
  by_cases h : oracle (Event.addService (ToIpvsService svc))
  · rw [show addServiceAndDestinations oracle svc dsts k tr =
        ⟨true, k, tr ++ [Event.addService (ToIpvsService svc)]⟩ from by
      simp [addServiceAndDestinations, h]]
    simp
  · rw [show addServiceAndDestinations oracle svc dsts k tr =
        addDests oracle (ToIpvsService svc) dsts (addService k (ToIpvsService svc))
          (tr ++ [Event.addService (ToIpvsService svc)]) from by
      simp [addServiceAndDestinations, h]]
    exact mem_tr_of_spec (addDests_spec _ _ _ _ _) (by simp)

theorem addLoop_events (oracle : Oracle) (st : State) (L : List Service)
    (k : Kernel) (tr : List Event) :
    (addLoop oracle st L k tr).err = false →
    ∀ s ∈ L, Event.callGetDestinations s ∈ (addLoop oracle st L k tr).tr ∧
      Event.addService (ToIpvsService s) ∈ (addLoop oracle st L k tr).tr := by
  induction L generalizing k tr with
  | nil =>
    intro _ s hs
    cases hs
  | cons s0 rest ih =>
    intro h s hs
    by_cases he : (addServiceAndDestinations oracle s0 (st.GetDestinations s0) k
        (tr ++ [Event.callGetDestinations s0])).err
    · rw [show addLoop oracle st (s0 :: rest) k tr =
          addServiceAndDestinations oracle s0 (st.GetDestinations s0) k
            (tr ++ [Event.callGetDestinations s0]) from by simp [addLoop, he]] at h
      rw [h] at he
      cases he
    · have hr : addLoop oracle st (s0 :: rest) k tr =
          addLoop oracle st rest
            (addServiceAndDestinations oracle s0 (st.GetDestinations s0) k
              (tr ++ [Event.callGetDestinations s0])).ker
            (addServiceAndDestinations oracle s0 (st.GetDestinations s0) k
              (tr ++ [Event.callGetDestinations s0])).tr := by
        simp [addLoop, he]
      rw [hr] at h ⊢
      rcases List.mem_cons.mp hs with rfl | hs
      · constructor
        · exact mem_tr_of_spec (addLoop_spec _ _ _ _ _)
            (mem_tr_of_spec (addServiceAndDestinations_spec _ _ _ _ _) (by simp))
        · exact mem_tr_of_spec (addLoop_spec _ _ _ _ _)
            (addServiceAndDestinations_events _ _ _ _ _)
      · exact ih _ _ h s hs

theorem syncDestinations_events (oracle : Oracle) (st : State) (svc : Service)
    (k : Kernel) (tr : List Event) :
    Event.callGetDestinations svc ∈ (syncDestinations oracle st svc k tr).tr ∧
    Event.getService (ToIpvsService svc) ∈ (syncDestinations oracle st svc k tr).tr := by
  by_cases hb : oracle (Event.getService (ToIpvsService svc))
  · rw [show syncDestinations oracle st svc k tr =
        ⟨true, k, (tr ++ [Event.callGetDestinations svc]) ++
          [Event.getService (ToIpvsService svc)]⟩ from by simp [syncDestinations, hb]]
    simp
  · cases hg : getCurrentDestinationsSet k svc with
    | none =>
      rw [show syncDestinations oracle st svc k tr =
          ⟨true, k, (tr ++ [Event.callGetDestinations svc]) ++
            [Event.getService (ToIpvsService svc)]⟩ from by simp [syncDestinations, hb, hg]]
      simp
    | some cur =>
      have hr : syncDestinations oracle st svc k tr =
          (if (addDests oracle (ToIpvsService svc)
                (setDiff (getStateDestinationsSet st svc) cur) k
                ((tr ++ [Event.callGetDestinations svc]) ++
                  [Event.getService (ToIpvsService svc)])).err = true
            then addDests oracle (ToIpvsService svc)
                (setDiff (getStateDestinationsSet st svc) cur) k
                ((tr ++ [Event.callGetDestinations svc]) ++
                  [Event.getService (ToIpvsService svc)])
            else delDests oracle (ToIpvsService svc)
                (setDiff cur (getStateDestinationsSet st svc))
                (addDests oracle (ToIpvsService svc)
                  (setDiff (getStateDestinationsSet st svc) cur) k
                  ((tr ++ [Event.callGetDestinations svc]) ++
                    [Event.getService (ToIpvsService svc)])).ker
                (addDests oracle (ToIpvsService svc)
                  (setDiff (getStateDestinationsSet st svc) cur) k
                  ((tr ++ [Event.callGetDestinations svc]) ++
                    [Event.getService (ToIpvsService svc)])).tr) := by
        simp [syncDestinations, hb, hg]
      rw [hr]
      by_cases ha : (addDests oracle (ToIpvsService svc)
          (setDiff (getStateDestinationsSet st svc) cur) k
          ((tr ++ [Event.callGetDestinations svc]) ++
            [Event.getService (ToIpvsService svc)])).err
      · rw [if_pos ha]
        exact ⟨mem_tr_of_spec (addDests_spec _ _ _ _ _) (by simp),
          mem_tr_of_spec (addDests_spec _ _ _ _ _) (by simp)⟩
      · rw [if_neg ha]
        exact ⟨mem_tr_of_spec (delDests_spec _ _ _ _ _)
            (mem_tr_of_spec (addDests_spec _ _ _ _ _) (by simp)),
          mem_tr_of_spec (delDests_spec _ _ _ _ _)
            (mem_tr_of_spec (addDests_spec _ _ _ _ _) (by simp))⟩

theorem syncAllDests_events (oracle : Oracle) (st : State) (L : List Service)
    (k : Kernel) (tr : List Event) :
    (syncAllDests oracle st L k tr).err = false →
    ∀ s ∈ L, Event.callGetDestinations s ∈ (syncAllDests oracle st L k tr).tr ∧
      Event.getService (ToIpvsService s) ∈ (syncAllDests oracle st L k tr).tr := by
  induction L generalizing k tr with
  | nil =>
    intro _ s hs
    cases hs
  | cons s0 rest ih =>
    intro h s hs
    by_cases he : (syncDestinations oracle st s0 k tr).err
    · rw [show syncAllDests oracle st (s0 :: rest) k tr =
          syncDestinations oracle st s0 k tr from by simp [syncAllDests, he]] at h
      rw [h] at he
      cases he
    · have hr : syncAllDests oracle st (s0 :: rest) k tr =
          syncAllDests oracle st rest (syncDestinations oracle st s0 k tr).ker
            (syncDestinations oracle st s0 k tr).tr := by
        simp [syncAllDests, he]
      rw [hr] at h ⊢
      rcases List.mem_cons.mp hs with rfl | hs
      · exact ⟨mem_tr_of_spec (syncAllDests_spec _ _ _ _ _)
            (syncDestinations_events _ _ _ _ _).1,
          mem_tr_of_spec (syncAllDests_spec _ _ _ _ _)
            (syncDestinations_events _ _ _ _ _).2⟩
      · exact ih _ _ h s hs

/-! Section: Provenance of the destination-list provider queries -/

theorem addDests_GD (oracle : Oracle) (isvc : IpvsService) (ds : List Destination)
    (k : Kernel) (tr : List Event) (s0 : Service) :
    Event.callGetDestinations s0 ∈ (addDests oracle isvc ds k tr).tr →
    Event.callGetDestinations s0 ∈ tr := by
  induction ds generalizing k tr with
  | nil => exact fun h => h
  | cons d rest ih =>
    intro h
    by_cases he : oracle (Event.addDest isvc (ToIpvsDestination d))
    · rw [show addDests oracle isvc (d :: rest) k tr =
          ⟨true, k, tr ++ [Event.addDest isvc (ToIpvsDestination d)]⟩ from by
        simp [addDests, he]] at h
      rcases List.mem_append.mp h with h | h
      · exact h
      · simp at h
    · rw [show addDests oracle isvc (d :: rest) k tr =
          addDests oracle isvc rest (addDestination k isvc (ToIpvsDestination d))
            (tr ++ [Event.addDest isvc (ToIpvsDestination d)]) from by
        simp [addDests, he]] at h
      rcases List.mem_append.mp (ih _ _ h) with h | h
      · exact h
      · simp at h

theorem delDests_GD (oracle : Oracle) (isvc : IpvsService) (ds : List Destination)
    (k : Kernel) (tr : List Event) (s0 : Service) :
    Event.callGetDestinations s0 ∈ (delDests oracle isvc ds k tr).tr →
    Event.callGetDestinations s0 ∈ tr := by
  induction ds generalizing k tr with
  | nil => exact fun h => h
  | cons d rest ih =>
    intro h
    by_cases he : oracle (Event.delDest isvc (ToIpvsDestination d))
    · rw [show delDests oracle isvc (d :: rest) k tr =
          ⟨true, k, tr ++ [Event.delDest isvc (ToIpvsDestination d)]⟩ from by
        simp [delDests, he]] at h
      rcases List.mem_append.mp h with h | h
      · exact h
      · simp at h
    · rw [show delDests oracle isvc (d :: rest) k tr =
          delDests oracle isvc rest (delDestination k isvc (ToIpvsDestination d))
            (tr ++ [Event.delDest isvc (ToIpvsDestination d)]) from by
        simp [delDests, he]] at h
      rcases List.mem_append.mp (ih _ _ h) with h | h
      · exact h
      · simp at h

theorem addServiceAndDestinations_GD (oracle : Oracle) (svc : Service)
    (dsts : List Destination) (k : Kernel) (tr : List Event) (s0 : Service) :
    Event.callGetDestinations s0 ∈ (addServiceAndDestinations oracle svc dsts k tr).tr →
    Event.callGetDestinations s0 ∈ tr := by
  intro h
  by_cases hb : oracle (Event.addService (ToIpvsService svc))
  · rw [show addServiceAndDestinations oracle svc dsts k tr =
        ⟨true, k, tr ++ [Event.addService (ToIpvsService svc)]⟩ from by
      simp [addServiceAndDestinations, hb]] at h
    rcases List.mem_append.mp h with h | h
    · exact h
    · simp at h
  · rw [show addServiceAndDestinations oracle svc dsts k tr =
        addDests oracle (ToIpvsService svc) dsts (addService k (ToIpvsService svc))
          (tr ++ [Event.addService (ToIpvsService svc)]) from by
      simp [addServiceAndDestinations, hb]] at h
    rcases List.mem_append.mp (addDests_GD _ _ _ _ _ _ h) with h | h
    · exact h
    · simp at h

theorem addLoop_GD (oracle : Oracle) (st : State) (L : List Service)
    (k : Kernel) (tr : List Event) (s0 : Service) :
    Event.callGetDestinations s0 ∈ (addLoop oracle st L k tr).tr →
    Event.callGetDestinations s0 ∈ tr ∨ s0 ∈ L := by
  induction L generalizing k tr with
  | nil => exact fun h => Or.inl h
  | cons s rest ih =>
    intro h
    by_cases he : (addServiceAndDestinations oracle s (st.GetDestinations s) k
        (tr ++ [Event.callGetDestinations s])).err
    · rw [show addLoop oracle st (s :: rest) k tr =
          addServiceAndDestinations oracle s (st.GetDestinations s) k
            (tr ++ [Event.callGetDestinations s]) from by simp [addLoop, he]] at h
      rcases List.mem_append.mp (addServiceAndDestinations_GD _ _ _ _ _ _ h) with h | h
      · exact Or.inl h
      · rw [show s0 = s from by simpa using h]
        exact Or.inr (List.mem_cons_self _ _)
    · rw [show addLoop oracle st (s :: rest) k tr =
          addLoop oracle st rest
            (addServiceAndDestinations oracle s (st.GetDestinations s) k
              (tr ++ [Event.callGetDestinations s])).ker
            (addServiceAndDestinations oracle s (st.GetDestinations s) k
              (tr ++ [Event.callGetDestinations s])).tr from by simp [addLoop, he]] at h
      rcases ih _ _ h with h | h
      · rcases List.mem_append.mp (addServiceAndDestinations_GD _ _ _ _ _ _ h) with h | h
        · exact Or.inl h
        · rw [show s0 = s from by simpa using h]
          exact Or.inr (List.mem_cons_self _ _)
      · exact Or.inr (List.mem_cons.mpr (Or.inr h))

theorem delLoop_GD (oracle : Oracle) (L : List Service) (k : Kernel) (tr : List Event)
    (s0 : Service) :
    Event.callGetDestinations s0 ∈ (delLoop oracle L k tr).tr →
    Event.callGetDestinations s0 ∈ tr := by
  induction L generalizing k tr with
  | nil => exact fun h => h
  | cons s rest ih =>
    intro h
    by_cases he : oracle (Event.delService (ToIpvsService s))
    · rw [show delLoop oracle (s :: rest) k tr =
          ⟨true, k, tr ++ [Event.delService (ToIpvsService s)]⟩ from by
        simp [delLoop, he]] at h
      rcases List.mem_append.mp h with h | h
      · exact h
      · simp at h
    · rw [show delLoop oracle (s :: rest) k tr =
          delLoop oracle rest (delService k (ToIpvsService s))
            (tr ++ [Event.delService (ToIpvsService s)]) from by simp [delLoop, he]] at h
      rcases List.mem_append.mp (ih _ _ h) with h | h
      · exact h
      · simp at h

theorem syncDestinations_GD (oracle : Oracle) (st : State) (svc : Service)
    (k : Kernel) (tr : List Event) (s0 : Service) :
    Event.callGetDestinations s0 ∈ (syncDestinations oracle st svc k tr).tr →
    Event.callGetDestinations s0 ∈ tr ∨ s0 = svc := by
  intro h
  have hbase : Event.callGetDestinations s0 ∈
      (tr ++ [Event.callGetDestinations svc]) ++ [Event.getService (ToIpvsService svc)] →
      Event.callGetDestinations s0 ∈ tr ∨ s0 = svc := by
    intro hmem
    rcases List.mem_append.mp hmem with hmem | hmem
    · rcases List.mem_append.mp hmem with hmem | hmem
      · exact Or.inl hmem
      · exact Or.inr (by simpa using hmem)
    · simp at hmem
  by_cases hb : oracle (Event.getService (ToIpvsService svc))
  · rw [show syncDestinations oracle st svc k tr =
        ⟨true, k, (tr ++ [Event.callGetDestinations svc]) ++
          [Event.getService (ToIpvsService svc)]⟩ from by simp [syncDestinations, hb]] at h
    exact hbase h
  · cases hg : getCurrentDestinationsSet k svc with
    | none =>
      rw [show syncDestinations oracle st svc k tr =
          ⟨true, k, (tr ++ [Event.callGetDestinations svc]) ++
            [Event.getService (ToIpvsService svc)]⟩ from by
        simp [syncDestinations, hb, hg]] at h
      exact hbase h
    | some cur =>
      have hr : syncDestinations oracle st svc k tr =
          (if (addDests oracle (ToIpvsService svc)
                (setDiff (getStateDestinationsSet st svc) cur) k
                ((tr ++ [Event.callGetDestinations svc]) ++
                  [Event.getService (ToIpvsService svc)])).err = true
            then addDests oracle (ToIpvsService svc)
                (setDiff (getStateDestinationsSet st svc) cur) k
                ((tr ++ [Event.callGetDestinations svc]) ++
                  [Event.getService (ToIpvsService svc)])
            else delDests oracle (ToIpvsService svc)
                (setDiff cur (getStateDestinationsSet st svc))
                (addDests oracle (ToIpvsService svc)
                  (setDiff (getStateDestinationsSet st svc) cur) k
                  ((tr ++ [Event.callGetDestinations svc]) ++
                    [Event.getService (ToIpvsService svc)])).ker
                (addDests oracle (ToIpvsService svc)
                  (setDiff (getStateDestinationsSet st svc) cur) k
                  ((tr ++ [Event.callGetDestinations svc]) ++
                    [Event.getService (ToIpvsService svc)])).tr) := by
        simp [syncDestinations, hb, hg]
      rw [hr] at h
      by_cases ha : (addDests oracle (ToIpvsService svc)
          (setDiff (getStateDestinationsSet st svc) cur) k
          ((tr ++ [Event.callGetDestinations svc]) ++
            [Event.getService (ToIpvsService svc)])).err
      · rw [if_pos ha] at h
        exact hbase (addDests_GD _ _ _ _ _ _ h)
      · rw [if_neg ha] at h
        exact hbase (addDests_GD _ _ _ _ _ _ (delDests_GD _ _ _ _ _ _ h))

theorem syncAllDests_GD (oracle : Oracle) (st : State) (L : List Service)
    (k : Kernel) (tr : List Event) (s0 : Service) :
    Event.callGetDestinations s0 ∈ (syncAllDests oracle st L k tr).tr →
    Event.callGetDestinations s0 ∈ tr ∨ s0 ∈ L := by
  induction L generalizing k tr with
  | nil => exact fun h => Or.inl h
  | cons s rest ih =>
    intro h
    by_cases he : (syncDestinations oracle st s k tr).err
    · rw [show syncAllDests oracle st (s :: rest) k tr =
          syncDestinations oracle st s k tr from by simp [syncAllDests, he]] at h
      rcases syncDestinations_GD _ _ _ _ _ _ h with h | h
      · exact Or.inl h
      · exact Or.inr (by rw [h]; exact List.mem_cons_self _ _)
    · rw [show syncAllDests oracle st (s :: rest) k tr =
          syncAllDests oracle st rest (syncDestinations oracle st s k tr).ker
            (syncDestinations oracle st s k tr).tr from by simp [syncAllDests, he]] at h
      rcases ih _ _ h with h | h
      · rcases syncDestinations_GD _ _ _ _ _ _ h with h | h
        · exact Or.inl h
        · exact Or.inr (by rw [h]; exact List.mem_cons_self _ _)
      · exact Or.inr (List.mem_cons.mpr (Or.inr h))

/-! Section: A converged kernel makes the destination phase a no-op -/

theorem syncDestinations_noop (oracle : Oracle) (st : State) (svc : Service)
    (k : Kernel) (tr : List Event)
    (hd : ∀ cur, getCurrentDestinationsSet k svc = some cur →
      setDiff (getStateDestinationsSet st svc) cur = [] ∧
      setDiff cur (getStateDestinationsSet st svc) = []) :
    (syncDestinations oracle st svc k tr).ker = k ∧
    (syncDestinations oracle st svc k tr).tr =
      (tr ++ [Event.callGetDestinations svc]) ++
        [Event.getService (ToIpvsService svc)] := by
  by_cases hb : oracle (Event.getService (ToIpvsService svc))
  · rw [show syncDestinations oracle st svc k tr =
        ⟨true, k, (tr ++ [Event.callGetDestinations svc]) ++
          [Event.getService (ToIpvsService svc)]⟩ from by simp [syncDestinations, hb]]
    exact ⟨rfl, rfl⟩
  · cases hg : getCurrentDestinationsSet k svc with
    | none =>
      rw [show syncDestinations oracle st svc k tr =
          ⟨true, k, (tr ++ [Event.callGetDestinations svc]) ++
            [Event.getService (ToIpvsService svc)]⟩ from by
        simp [syncDestinations, hb, hg]]
      exact ⟨rfl, rfl⟩
    | some cur =>
      rcases hd cur hg with ⟨hA, hR⟩
      have hr : syncDestinations oracle st svc k tr =
          (if (addDests oracle (ToIpvsService svc)
                (setDiff (getStateDestinationsSet st svc) cur) k
                ((tr ++ [Event.callGetDestinations svc]) ++
                  [Event.getService (ToIpvsService svc)])).err = true
            then addDests oracle (ToIpvsService svc)
                (setDiff (getStateDestinationsSet st svc) cur) k
                ((tr ++ [Event.callGetDestinations svc]) ++
                  [Event.getService (ToIpvsService svc)])
            else delDests oracle (ToIpvsService svc)
                (setDiff cur (getStateDestinationsSet st svc))
                (addDests oracle (ToIpvsService svc)
                  (setDiff (getStateDestinationsSet st svc) cur) k
                  ((tr ++ [Event.callGetDestinations svc]) ++
                    [Event.getService (ToIpvsService svc)])).ker
                (addDests oracle (ToIpvsService svc)
                  (setDiff (getStateDestinationsSet st svc) cur) k
                  ((tr ++ [Event.callGetDestinations svc]) ++
                    [Event.getService (ToIpvsService svc)])).tr) := by
        simp [syncDestinations, hb, hg]
      rw [hr, hA, hR]
      constructor
      · simp [addDests, delDests]
      · simp [addDests, delDests]

theorem syncAllDests_noop (oracle : Oracle) (st : State) (L : List Service)
    (k : Kernel) (tr : List Event) :
    (∀ s ∈ L, ∀ cur, getCurrentDestinationsSet k s = some cur →
      setDiff (getStateDestinationsSet st s) cur = [] ∧
      setDiff cur (getStateDestinationsSet st s) = []) →
    (syncAllDests oracle st L k tr).ker = k ∧
    ∀ e ∈ (syncAllDests oracle st L k tr).tr, e ∈ tr ∨ isMutationCall e = false := by
  induction L generalizing tr with
  | nil =>
    intro _
    exact ⟨rfl, fun e he => Or.inl he⟩
  | cons s rest ih =>
    intro hd
    rcases syncDestinations_noop oracle st s k tr (hd s (List.mem_cons_self _ _))
      with ⟨hker, htr⟩
    have hbase : ∀ e ∈ (syncDestinations oracle st s k tr).tr,
        e ∈ tr ∨ isMutationCall e = false := by
      intro e hee
      rw [htr] at hee
      rcases List.mem_append.mp hee with hee | hee
      · rcases List.mem_append.mp hee with hee | hee
        · exact Or.inl hee
        · rw [List.mem_singleton.mp hee]
          exact Or.inr (by simp [isMutationCall])
      · rw [List.mem_singleton.mp hee]
        exact Or.inr (by simp [isMutationCall])
    by_cases he : (syncDestinations oracle st s k tr).err
    · rw [show syncAllDests oracle st (s :: rest) k tr =
          syncDestinations oracle st s k tr from by simp [syncAllDests, he]]
      exact ⟨hker, hbase⟩
    · rw [show syncAllDests oracle st (s :: rest) k tr =
          syncAllDests oracle st rest (syncDestinations oracle st s k tr).ker
            (syncDestinations oracle st s k tr).tr from by simp [syncAllDests, he]]
      rw [hker]
      rcases ih _ (fun s' hs' => hd s' (List.mem_cons.mpr (Or.inr hs'))) with ⟨i1, i2⟩
      refine ⟨i1, ?_⟩
      intro e hee
      rcases i2 e hee with hee | hee
      · exact hbase e hee
      · exact Or.inr hee

/-! Section: Concrete instances used by witnesses and counterexamples -/

def sampleService : Service := ⟨"web", "10.0.0.1", 80, "tcp", "rr", "nat"⟩

def sampleDest : Destination := ⟨"dst1", "10.1.0.1", 8080, 1, "route", "web"⟩

def sampleState : State := ⟨[sampleService], fun _ => [sampleDest]⟩

def emptyKernel : Kernel := ⟨[], fun _ => []⟩

def noFail : Oracle := fun _ => false

def failAddSvc : Oracle := fun e =>
  decide (e = Event.addService (ToIpvsService sampleService))

def failGetSvc : Oracle := fun e =>
  decide (e = Event.getService (ToIpvsService sampleService))

def failList : Oracle := fun e => decide (e = Event.listServices)

theorem getCurrentDestinationsSet_eq {k : Kernel} {svc : Service} {cur : List Destination}
    (h : getCurrentDestinationsSet k svc = some cur) :
    cur = mkSet ((k.dests (ToIpvsService svc)).map fromDestination) := by
  unfold getCurrentDestinationsSet getService at h
  by_cases hm : ToIpvsService svc ∈ k.services
  · rw [if_pos hm] at h
    simp only [Option.map_some'] at h
    exact (Option.some_inj.mp h).symm
  · rw [if_neg hm] at h
    simp at h

/-! Section: Claim theorems -/

/-- C3: two Services differing only in name and/or mode normalize to equal
records (equal records hash equal), and all other fields — host, port,
protocol, scheduler — participate in the comparison; likewise two
Destinations differing only in name and/or owning-service reference
normalize to equal records, with host, port, weight and forwarding mode
participating. -/
theorem c3_normalization :
    (∀ s1 s2 : Service, normalizeService s1 = normalizeService s2 ↔
      (s1.Host = s2.Host ∧ s1.Port = s2.Port ∧ s1.Protocol = s2.Protocol ∧
        s1.Scheduler = s2.Scheduler)) ∧
    (∀ d1 d2 : Destination, normalizeDestination d1 = normalizeDestination d2 ↔
      (d1.Host = d2.Host ∧ d1.Port = d2.Port ∧ d1.Weight = d2.Weight ∧
        d1.Mode = d2.Mode)) := by
  constructor
  · intro s1 s2
    cases s1
    cases s2
    simp [normalizeService]
  · intro d1 d2
    cases d1
    cases d2
    simp [normalizeDestination]

/-- C2 counterexample: with one desired service (name "web", mode "nat") and
an empty kernel table, the `toAdd` set computed by `Sync` contains the
normalized copy but not the original desired entity, refuting "the elements
of both result sets are the original entities (not altered copies)". -/
theorem c2_counterexample :
    sampleService ∉ serviceRulesToAdd sampleState emptyKernel ∧
    normalizeService sampleService ∈ serviceRulesToAdd sampleState emptyKernel ∧
    normalizeService sampleService ≠ sampleService := by decide

/-- C2 amended: the diffs used by `Sync` and `syncDestinations` are the set
differences desired − current and current − desired over normalized keys,
but their elements are the normalized copies of the desired entities (and
translated kernel records), not the original entities. -/
theorem c2_diff_correctness (st : State) (k : Kernel) :
    (serviceRulesToAdd st k).toFinset =
      (getStateServicesSet st).toFinset \ (getCurrentServicesSet k).toFinset ∧
    (serviceRulesToRemove st k).toFinset =
      (getCurrentServicesSet k).toFinset \ (getStateServicesSet st).toFinset ∧
    (∀ x ∈ serviceRulesToAdd st k, ∃ s ∈ st.GetServices, x = normalizeService s) ∧
    (∀ x ∈ serviceRulesToRemove st k, ∃ ks ∈ k.services, x = FromService ks) ∧
    ∀ svc : Service, ∀ cur : List Destination,
      (setDiff (getStateDestinationsSet st svc) cur).toFinset =
        (getStateDestinationsSet st svc).toFinset \ cur.toFinset ∧
      (setDiff cur (getStateDestinationsSet st svc)).toFinset =
        cur.toFinset \ (getStateDestinationsSet st svc).toFinset ∧
      ∀ x ∈ setDiff (getStateDestinationsSet st svc) cur,
        ∃ d ∈ st.GetDestinations svc, x = normalizeDestination d := by
  refine ⟨setDiff_toFinset _ _, setDiff_toFinset _ _, ?_, ?_, ?_⟩
  · intro x hx
    have hx1 : x ∈ getStateServicesSet st := (mem_setDiff.mp hx).1
    rw [getStateServicesSet, mem_mkSet] at hx1
    rcases List.mem_map.mp hx1 with ⟨s, hs, hsx⟩
    exact ⟨s, hs, hsx.symm⟩
  · intro x hx
    have hx1 : x ∈ getCurrentServicesSet k := (mem_setDiff.mp hx).1
    rw [getCurrentServicesSet, mem_mkSet] at hx1
    rcases List.mem_map.mp hx1 with ⟨ks, hks, hkx⟩
    exact ⟨ks, hks, hkx.symm⟩
  · intro svc cur
    refine ⟨setDiff_toFinset _ _, setDiff_toFinset _ _, ?_⟩
    intro x hx
    have hx1 : x ∈ getStateDestinationsSet st svc := (mem_setDiff.mp hx).1
    rw [getStateDestinationsSet, mem_mkSet] at hx1
    rcases List.mem_map.mp hx1 with ⟨d, hd, hdx⟩
    exact ⟨d, hd, hdx.symm⟩

/-- Witness for the amended C2: the normalized sample service in the
computed `toAdd` of the sample state is a normalized copy of a desired
service. -/
theorem c2_witness :
    ∃ s ∈ sampleState.GetServices,
      normalizeService sampleService = normalizeService s :=
  (c2_diff_correctness sampleState emptyKernel).2.2.1
    (normalizeService sampleService) (by decide)

/-- C10: every element of the diff result sets is a normalized copy with its
metadata zeroed (Name and Mode empty for services, Name and ServiceId empty
for destinations); and on a successful pass, for every service of `toAdd`,
`AddService` is invoked with the stripped copy and the provider's
`GetDestinations` is queried with that stripped copy. -/
theorem c10_normalized_copies (oracle : Oracle) (st : State) (k : Kernel) :
    (∀ x ∈ serviceRulesToAdd st k, x.Name = "" ∧ x.Mode = "") ∧
    (∀ x ∈ serviceRulesToRemove st k, x.Name = "" ∧ x.Mode = "") ∧
    (∀ svc : Service, ∀ cur : List Destination,
      getCurrentDestinationsSet k svc = some cur →
      (∀ x ∈ setDiff (getStateDestinationsSet st svc) cur,
        x.Name = "" ∧ x.ServiceId = "") ∧
      (∀ x ∈ setDiff cur (getStateDestinationsSet st svc),
        x.Name = "" ∧ x.ServiceId = "")) ∧
    ((Sync oracle st k).err = false →
      ∀ x ∈ serviceRulesToAdd st k,
        Event.addService (ToIpvsService x) ∈ (Sync oracle st k).tr ∧
        Event.callGetDestinations x ∈ (Sync oracle st k).tr) := by
  refine ⟨?_, ?_, ?_, ?_⟩
  · intro x hx
    have hx1 : x ∈ getStateServicesSet st := (mem_setDiff.mp hx).1
    rw [getStateServicesSet, mem_mkSet] at hx1
    rcases List.mem_map.mp hx1 with ⟨s, _, hsx⟩
    rw [← hsx]
    exact ⟨rfl, rfl⟩
  · intro x hx
    have hx1 : x ∈ getCurrentServicesSet k := (mem_setDiff.mp hx).1
    rw [getCurrentServicesSet, mem_mkSet] at hx1
    rcases List.mem_map.mp hx1 with ⟨ks, _, hkx⟩
    rw [← hkx]
    exact ⟨rfl, rfl⟩
  · intro svc cur hcur
    constructor
    · intro x hx
      have hx1 : x ∈ getStateDestinationsSet st svc := (mem_setDiff.mp hx).1
      rw [getStateDestinationsSet, mem_mkSet] at hx1
      rcases List.mem_map.mp hx1 with ⟨d, _, hdx⟩
      rw [← hdx]
      exact ⟨rfl, rfl⟩
    · intro x hx
      have hx1 : x ∈ cur := (mem_setDiff.mp hx).1
      rw [getCurrentDestinationsSet_eq hcur, mem_mkSet] at hx1
      rcases List.mem_map.mp hx1 with ⟨kd, _, hdx⟩
      rw [← hdx]
      exact ⟨rfl, rfl⟩
  · intro hok x hx
    by_cases hls : oracle Event.listServices
    · rw [show Sync oracle st k =
          ⟨true, k, [Event.callGetServices, Event.listServices]⟩ from by
        simp [Sync, hls]] at hok
      simp at hok
    · by_cases h1 : (addLoop oracle st (serviceRulesToAdd st k) k
          [Event.callGetServices, Event.listServices]).err
      · rw [show Sync oracle st k = addLoop oracle st (serviceRulesToAdd st k) k
            [Event.callGetServices, Event.listServices] from by
          simp [Sync, hls, h1]] at hok
        rw [hok] at h1
        cases h1
      · by_cases h2 : (delLoop oracle (serviceRulesToRemove st k)
            (addLoop oracle st (serviceRulesToAdd st k) k
              [Event.callGetServices, Event.listServices]).ker
            (addLoop oracle st (serviceRulesToAdd st k) k
              [Event.callGetServices, Event.listServices]).tr).err
        · rw [show Sync oracle st k = delLoop oracle (serviceRulesToRemove st k)
              (addLoop oracle st (serviceRulesToAdd st k) k
                [Event.callGetServices, Event.listServices]).ker
              (addLoop oracle st (serviceRulesToAdd st k) k
                [Event.callGetServices, Event.listServices]).tr from by
            simp [Sync, hls, h1, h2]] at hok
          rw [hok] at h2
          cases h2
        · rw [show Sync oracle st k = syncAllDests oracle st st.GetServices
              (delLoop oracle (serviceRulesToRemove st k)
                (addLoop oracle st (serviceRulesToAdd st k) k
                  [Event.callGetServices, Event.listServices]).ker
                (addLoop oracle st (serviceRulesToAdd st k) k
                  [Event.callGetServices, Event.listServices]).tr).ker
              ((delLoop oracle (serviceRulesToRemove st k)
                (addLoop oracle st (serviceRulesToAdd st k) k
                  [Event.callGetServices, Event.listServices]).ker
                (addLoop oracle st (serviceRulesToAdd st k) k
                  [Event.callGetServices, Event.listServices]).tr).tr ++
                [Event.callGetServices]) from by simp [Sync, hls, h1, h2]]
          rcases addLoop_events oracle st (serviceRulesToAdd st k) k
            [Event.callGetServices, Event.listServices]
            (by rw [Bool.not_eq_true] at h1; exact h1) x hx with ⟨e1, e2⟩
          constructor
          · exact mem_tr_of_spec (syncAllDests_spec _ _ _ _ _)
              (List.mem_append.mpr (Or.inl (mem_tr_of_spec (delLoop_spec _ _ _ _) e2)))
          · exact mem_tr_of_spec (syncAllDests_spec _ _ _ _ _)
              (List.mem_append.mpr (Or.inl (mem_tr_of_spec (delLoop_spec _ _ _ _) e1)))

/-- Witness for C10: on the sample run the stripped copy of the sample
service is what `AddService` and the `GetDestinations` query receive. -/
theorem c10_witness :
    Event.addService (ToIpvsService (normalizeService sampleService)) ∈
      (Sync noFail sampleState emptyKernel).tr ∧
    Event.callGetDestinations (normalizeService sampleService) ∈
      (Sync noFail sampleState emptyKernel).tr :=
  (c10_normalized_copies noFail sampleState emptyKernel).2.2.2 (by decide)
    (normalizeService sampleService) (by decide)

theorem image_norm_services (st : State) :
    ((st.GetServices.map normalizeService).toFinset).image
        (fun x => FromService (ToIpvsService x)) =
      (st.GetServices.map normalizeService).toFinset := by
  have h1 : ((st.GetServices.map normalizeService).toFinset).image
      (fun x => FromService (ToIpvsService x)) =
      ((st.GetServices.map normalizeService).toFinset).image id :=
    Finset.image_congr (fun x hx => normalized_mem_services (by simpa using hx))
  rw [h1, Finset.image_id]

theorem image_norm_dests (st : State) (svc : Service) :
    (((st.GetDestinations svc).map normalizeDestination).toFinset).image
        (fun x => fromDestination (ToIpvsDestination x)) =
      ((st.GetDestinations svc).map normalizeDestination).toFinset := by
  have h1 : (((st.GetDestinations svc).map normalizeDestination).toFinset).image
      (fun x => fromDestination (ToIpvsDestination x)) =
      (((st.GetDestinations svc).map normalizeDestination).toFinset).image id :=
    Finset.image_congr (fun x hx => normalized_mem_dests (by simpa using hx))
  rw [h1, Finset.image_id]

/-- C1: whenever `Sync` returns no error, the normalized set of live
services equals the normalized set of desired services, and for every
desired service the normalized set of live destinations equals the
normalized set of its desired destinations (the adapter primitives are
modelled by their contract; desired service identities are unique per the
data-model invariant). -/
theorem c1_convergence (oracle : Oracle) (st : State) (k : Kernel)
    (hnd : (st.GetServices.map normalizeService).Nodup)
    (h : (Sync oracle st k).err = false) :
    ((Sync oracle st k).ker.services.map FromService).toFinset =
      (st.GetServices.map normalizeService).toFinset ∧
    ∀ s ∈ st.GetServices,
      (((Sync oracle st k).ker.dests (ToIpvsService s)).map fromDestination).toFinset =
        ((st.GetDestinations s).map normalizeDestination).toFinset := by
  rcases Sync_ok oracle st k hnd h with ⟨g1, g2⟩
  constructor
  · rw [toFinset_map_eq, g1, Finset.image_image]
    exact image_norm_services st
  · intro s hs
    rw [toFinset_map_eq, g2 s hs, Finset.image_image]
    exact image_norm_dests st s

/-- Witness for C1 at a concrete desired state and an empty kernel. -/
theorem c1_witness :
    ((Sync noFail sampleState emptyKernel).ker.services.map FromService).toFinset =
      (sampleState.GetServices.map normalizeService).toFinset ∧
    ∀ s ∈ sampleState.GetServices,
      (((Sync noFail sampleState emptyKernel).ker.dests
          (ToIpvsService s)).map fromDestination).toFinset =
        ((sampleState.GetDestinations s).map normalizeDestination).toFinset :=
  c1_convergence noFail sampleState emptyKernel (by decide) (by decide)

/-- A kernel on which both service diffs and all destination diffs are
empty makes a whole pass mutation-free, whatever its oracle does. -/
theorem Sync_no_mutation (oracle2 : Oracle) (st : State) (k2 : Kernel)
    (ha : serviceRulesToAdd st k2 = [])
    (hb : serviceRulesToRemove st k2 = [])
    (hc : ∀ s ∈ st.GetServices, ∀ cur, getCurrentDestinationsSet k2 s = some cur →
      setDiff (getStateDestinationsSet st s) cur = [] ∧
      setDiff cur (getStateDestinationsSet st s) = []) :
    ∀ e ∈ (Sync oracle2 st k2).tr, isMutationCall e = false := by
  intro e he
  by_cases hls : oracle2 Event.listServices
  · rw [show Sync oracle2 st k2 =
        ⟨true, k2, [Event.callGetServices, Event.listServices]⟩ from by
      simp [Sync, hls]] at he
    rcases List.mem_cons.mp he with rfl | he
    · rfl
    rcases List.mem_cons.mp he with rfl | he
    · rfl
    cases he
  · have hrun : Sync oracle2 st k2 =
        syncAllDests oracle2 st st.GetServices k2
          [Event.callGetServices, Event.listServices, Event.callGetServices] := by
      simp [Sync, hls, ha, hb, addLoop, delLoop]
    rw [hrun] at he
    rcases syncAllDests_noop oracle2 st st.GetServices k2
        [Event.callGetServices, Event.listServices, Event.callGetServices]
        hc with ⟨_, i2⟩
    rcases i2 e he with hee | hee
    · rcases List.mem_cons.mp hee with rfl | hee
      · rfl
      rcases List.mem_cons.mp hee with rfl | hee
      · rfl
      rcases List.mem_cons.mp hee with rfl | hee
      · rfl
      cases hee
    · exact hee

/-- C5: after a successful pass with unchanged desired state and no outside
mutation, a second pass computes empty `toAdd` and `toRemove` at the service
level and at the destination level of every desired service, and therefore
performs no adapter mutation whatever its adapter oracle does. -/
theorem c5_idempotence (oracle : Oracle) (st : State) (k : Kernel)
    (hnd : (st.GetServices.map normalizeService).Nodup)
    (h : (Sync oracle st k).err = false) :
    serviceRulesToAdd st (Sync oracle st k).ker = [] ∧
    serviceRulesToRemove st (Sync oracle st k).ker = [] ∧
    (∀ s ∈ st.GetServices, ∃ cur,
      getCurrentDestinationsSet (Sync oracle st k).ker s = some cur ∧
      setDiff (getStateDestinationsSet st s) cur = [] ∧
      setDiff cur (getStateDestinationsSet st s) = []) ∧
    ∀ oracle2 : Oracle, ∀ e ∈ (Sync oracle2 st (Sync oracle st k).ker).tr,
      isMutationCall e = false := by
  rcases Sync_ok oracle st k hnd h with ⟨g1, g2⟩
  have hcur : (getCurrentServicesSet (Sync oracle st k).ker).toFinset =
      (st.GetServices.map normalizeService).toFinset := by
    rw [getCurrentServicesSet_toFinset, g1, Finset.image_image]
    exact image_norm_services st
  have ha : serviceRulesToAdd st (Sync oracle st k).ker = [] := by
    rw [serviceRulesToAdd, setDiff_eq_nil_iff]
    intro x hx
    have hxA : x ∈ (st.GetServices.map normalizeService).toFinset :=
      List.mem_toFinset.mpr (by rw [getStateServicesSet, mem_mkSet] at hx; exact hx)
    have hxc : x ∈ (getCurrentServicesSet (Sync oracle st k).ker).toFinset := by
      rw [hcur]
      exact hxA
    exact List.mem_toFinset.mp hxc
  have hb : serviceRulesToRemove st (Sync oracle st k).ker = [] := by
    rw [serviceRulesToRemove, setDiff_eq_nil_iff]
    intro x hx
    have hxc : x ∈ (getCurrentServicesSet (Sync oracle st k).ker).toFinset :=
      List.mem_toFinset.mpr hx
    rw [hcur] at hxc
    rw [getStateServicesSet, mem_mkSet]
    exact List.mem_toFinset.mp hxc
  have hc : ∀ s ∈ st.GetServices, ∃ cur,
      getCurrentDestinationsSet (Sync oracle st k).ker s = some cur ∧
      setDiff (getStateDestinationsSet st s) cur = [] ∧
      setDiff cur (getStateDestinationsSet st s) = [] := by
    intro s hs
    have hkey : ToIpvsService s ∈ (Sync oracle st k).ker.services := by
      have hmem : ToIpvsService s ∈ (Sync oracle st k).ker.services.toFinset := by
        rw [g1]
        exact Finset.mem_image.mpr ⟨normalizeService s,
          List.mem_toFinset.mpr (List.mem_map.mpr ⟨s, hs, rfl⟩), rfl⟩
      exact List.mem_toFinset.mp hmem
    refine ⟨mkSet (((Sync oracle st k).ker.dests (ToIpvsService s)).map fromDestination),
      by simp [getCurrentDestinationsSet, getService, hkey], ?_, ?_⟩
    · rw [setDiff_eq_nil_iff]
      intro x hx
      have hxA : x ∈ ((st.GetDestinations s).map normalizeDestination).toFinset :=
        List.mem_toFinset.mpr (by rw [getStateDestinationsSet, mem_mkSet] at hx; exact hx)
      have hcurd : (mkSet (((Sync oracle st k).ker.dests
          (ToIpvsService s)).map fromDestination)).toFinset =
          ((st.GetDestinations s).map normalizeDestination).toFinset := by
        rw [mkSet_toFinset, toFinset_map_eq, g2 s hs, Finset.image_image]
        exact image_norm_dests st s
      rw [← hcurd] at hxA
      exact List.mem_toFinset.mp hxA
    · rw [setDiff_eq_nil_iff]
      intro x hx
      have hcurd : (mkSet (((Sync oracle st k).ker.dests
          (ToIpvsService s)).map fromDestination)).toFinset =
          ((st.GetDestinations s).map normalizeDestination).toFinset := by
        rw [mkSet_toFinset, toFinset_map_eq, g2 s hs, Finset.image_image]
        exact image_norm_dests st s
      have hxA : x ∈ ((st.GetDestinations s).map normalizeDestination).toFinset := by
        rw [← hcurd]
        exact List.mem_toFinset.mpr hx
      rw [getStateDestinationsSet, mem_mkSet]
      exact List.mem_toFinset.mp hxA
  refine ⟨ha, hb, hc, ?_⟩
  intro oracle2
  exact Sync_no_mutation oracle2 st (Sync oracle st k).ker ha hb
    (fun s hs cur hcur => by
      rcases hc s hs with ⟨cur0, hcur0, hd1, hd2⟩
      have hcc : cur0 = cur := Option.some_inj.mp (hcur0.symm.trans hcur)
      rw [← hcc]
      exact ⟨hd1, hd2⟩)

/-- Witness for C5 at a concrete desired state and an empty kernel. -/
theorem c5_witness :
    serviceRulesToAdd sampleState (Sync noFail sampleState emptyKernel).ker = [] ∧
    serviceRulesToRemove sampleState (Sync noFail sampleState emptyKernel).ker = [] ∧
    (∀ s ∈ sampleState.GetServices, ∃ cur,
      getCurrentDestinationsSet (Sync noFail sampleState emptyKernel).ker s = some cur ∧
      setDiff (getStateDestinationsSet sampleState s) cur = [] ∧
      setDiff cur (getStateDestinationsSet sampleState s) = []) ∧
    ∀ oracle2 : Oracle,
      ∀ e ∈ (Sync oracle2 sampleState (Sync noFail sampleState emptyKernel).ker).tr,
        isMutationCall e = false :=
  c5_idempotence noFail sampleState emptyKernel (by decide) (by decide)

/-- C4: on every pass that completes without error, destination
reconciliation runs for every Service in the desired state — including
services untouched by the service-level diff: both its `GetDestinations`
provider query and its kernel `GetService` fetch appear in the pass's
trace. -/
theorem c4_unconditional_dest_pass (oracle : Oracle) (st : State) (k : Kernel)
    (h : (Sync oracle st k).err = false) :
    ∀ s ∈ st.GetServices,
      Event.callGetDestinations s ∈ (Sync oracle st k).tr ∧
      Event.getService (ToIpvsService s) ∈ (Sync oracle st k).tr := by
  intro s hs
  by_cases hls : oracle Event.listServices
  · rw [show Sync oracle st k =
        ⟨true, k, [Event.callGetServices, Event.listServices]⟩ from by
      simp [Sync, hls]] at h
    simp at h
  · by_cases h1 : (addLoop oracle st (serviceRulesToAdd st k) k
        [Event.callGetServices, Event.listServices]).err
    · rw [show Sync oracle st k = addLoop oracle st (serviceRulesToAdd st k) k
          [Event.callGetServices, Event.listServices] from by simp [Sync, hls, h1]] at h
      rw [h] at h1
      cases h1
    · by_cases h2 : (delLoop oracle (serviceRulesToRemove st k)
          (addLoop oracle st (serviceRulesToAdd st k) k
            [Event.callGetServices, Event.listServices]).ker
          (addLoop oracle st (serviceRulesToAdd st k) k
            [Event.callGetServices, Event.listServices]).tr).err
      · rw [show Sync oracle st k = delLoop oracle (serviceRulesToRemove st k)
            (addLoop oracle st (serviceRulesToAdd st k) k
              [Event.callGetServices, Event.listServices]).ker
            (addLoop oracle st (serviceRulesToAdd st k) k
              [Event.callGetServices, Event.listServices]).tr from by
          simp [Sync, hls, h1, h2]] at h
        rw [h] at h2
        cases h2
      · rw [show Sync oracle st k = syncAllDests oracle st st.GetServices
            (delLoop oracle (serviceRulesToRemove st k)
              (addLoop oracle st (serviceRulesToAdd st k) k
                [Event.callGetServices, Event.listServices]).ker
              (addLoop oracle st (serviceRulesToAdd st k) k
                [Event.callGetServices, Event.listServices]).tr).ker
            ((delLoop oracle (serviceRulesToRemove st k)
              (addLoop oracle st (serviceRulesToAdd st k) k
                [Event.callGetServices, Event.listServices]).ker
              (addLoop oracle st (serviceRulesToAdd st k) k
                [Event.callGetServices, Event.listServices]).tr).tr ++
              [Event.callGetServices]) from by simp [Sync, hls, h1, h2]] at h ⊢
        exact syncAllDests_events oracle st st.GetServices _ _ h s hs

/-- Witness for C4 at a concrete desired state and an empty kernel. -/
theorem c4_witness :
    Event.callGetDestinations sampleService ∈
      (Sync noFail sampleState emptyKernel).tr ∧
    Event.getService (ToIpvsService sampleService) ∈
      (Sync noFail sampleState emptyKernel).tr :=
  c4_unconditional_dest_pass noFail sampleState emptyKernel (by decide)
    sampleService (by decide)

/-- C6: whenever an adapter mutation call made during a pass returns an
error, `Sync` returns the error immediately: the failing call is the last
event of the trace, every adapter call before it succeeded (so it is not
retried and no further adapter call is made), and the resulting kernel is
exactly the in-order replay of the successful calls of the trace (no
rollback of already-applied calls). -/
theorem c6_error_propagation (oracle : Oracle) (st : State) (k : Kernel) (e : Event)
    (hmut : isMutationCall e = true) (hfail : oracle e = true)
    (hmem : e ∈ (Sync oracle st k).tr) :
    (Sync oracle st k).err = true ∧
    (∃ pre, (Sync oracle st k).tr = pre ++ [e] ∧
      ∀ x ∈ pre, isAdapterCall x = true → oracle x = false) ∧
    (Sync oracle st k).ker = applyEvents oracle k (Sync oracle st k).tr := by
  rcases Sync_master oracle st k with ⟨hker, hok, herr⟩
  have hAd : isAdapterCall e = true := by
    cases e <;> simp [isMutationCall, isAdapterCall] at hmut ⊢
  cases hE : (Sync oracle st k).err with
  | false =>
    have hfalse := (hok hE).1 e hmem hAd
    rw [hfalse] at hfail
    cases hfail
  | true =>
    rcases herr hE with ⟨pre, x, htr, hxAd, hpre⟩
    have hex : e = x := by
      rcases List.mem_append.mp (htr ▸ hmem) with hm | hm
      · have hfalse := hpre e hm hAd
        rw [hfalse] at hfail
        cases hfail
      · exact List.mem_singleton.mp hm
    exact ⟨rfl, ⟨pre, by rw [htr, hex], hpre⟩, hker⟩

/-- Witness for C6: a failing `AddService` aborts the sample pass as its
last adapter call and the kernel is the replay of the trace. -/
theorem c6_witness :
    (Sync failAddSvc sampleState emptyKernel).err = true ∧
    (∃ pre, (Sync failAddSvc sampleState emptyKernel).tr =
      pre ++ [Event.addService (ToIpvsService sampleService)] ∧
      ∀ x ∈ pre, isAdapterCall x = true → failAddSvc x = false) ∧
    (Sync failAddSvc sampleState emptyKernel).ker =
      applyEvents failAddSvc emptyKernel (Sync failAddSvc sampleState emptyKernel).tr :=
  c6_error_propagation failAddSvc sampleState emptyKernel
    (Event.addService (ToIpvsService sampleService)) (by decide) (by decide) (by decide)

/-- C7 counterexample: with one new desired service and an oracle failing
the `GetService` destination fetch, the read failure surfaces after the
pass has already mutated the kernel (`AddService` was applied), refuting
"aborts before any mutation of the kernel table has been performed". -/
theorem c7_counterexample :
    failGetSvc (Event.getService (ToIpvsService sampleService)) = true ∧
    Event.getService (ToIpvsService sampleService) ∈
      (Sync failGetSvc sampleState emptyKernel).tr ∧
    (Sync failGetSvc sampleState emptyKernel).err = true ∧
    Event.addService (ToIpvsService sampleService) ∈
      (Sync failGetSvc sampleState emptyKernel).tr ∧
    (Sync failGetSvc sampleState emptyKernel).ker.services ≠ emptyKernel.services := by
  decide

/-- C7 amended: a failure of the initial `ListServices` snapshot is
surfaced and aborts the pass before any mutation (kernel unchanged, no
mutation call issued); a failure of a `GetService` destination fetch is
surfaced and stops the pass at that read (it is the last event of the
trace, every earlier adapter call succeeded), but mutations applied earlier
in the pass remain. -/
theorem c7_read_failure (oracle : Oracle) (st : State) (k : Kernel) :
    (oracle Event.listServices = true →
      (Sync oracle st k).err = true ∧ (Sync oracle st k).ker = k ∧
      ∀ e ∈ (Sync oracle st k).tr, isMutationCall e = false) ∧
    (∀ i : IpvsService, oracle (Event.getService i) = true →
      Event.getService i ∈ (Sync oracle st k).tr →
      (Sync oracle st k).err = true ∧
      ∃ pre, (Sync oracle st k).tr = pre ++ [Event.getService i] ∧
        ∀ x ∈ pre, isAdapterCall x = true → oracle x = false) := by
  constructor
  · intro hls
    rw [show Sync oracle st k =
        ⟨true, k, [Event.callGetServices, Event.listServices]⟩ from by
      simp [Sync, hls]]
    refine ⟨rfl, rfl, ?_⟩
    intro e he
    rcases List.mem_cons.mp he with rfl | he
    · rfl
    rcases List.mem_cons.mp he with rfl | he
    · rfl
    cases he
  · intro i hfail hmem
    rcases Sync_master oracle st k with ⟨_, hok, herr⟩
    cases hE : (Sync oracle st k).err with
    | false =>
      have hfalse := (hok hE).1 (Event.getService i) hmem (by simp [isAdapterCall])
      rw [hfalse] at hfail
      cases hfail
    | true =>
      rcases herr hE with ⟨pre, x, htr, hxAd, hpre⟩
      have hex : Event.getService i = x := by
        rcases List.mem_append.mp (htr ▸ hmem) with hm | hm
        · have hfalse := hpre _ hm (by simp [isAdapterCall])
          rw [hfalse] at hfail
          cases hfail
        · exact List.mem_singleton.mp hm
      exact ⟨rfl, pre, by rw [htr, hex], hpre⟩

/-- Witness for the amended C7: a failing `ListServices` aborts the sample
pass unchanged, and a failing destination fetch ends the trace of its
pass. -/
theorem c7_witness :
    ((Sync failList sampleState emptyKernel).err = true ∧
      (Sync failList sampleState emptyKernel).ker = emptyKernel ∧
      ∀ e ∈ (Sync failList sampleState emptyKernel).tr, isMutationCall e = false) ∧
    ((Sync failGetSvc sampleState emptyKernel).err = true ∧
      ∃ pre, (Sync failGetSvc sampleState emptyKernel).tr =
        pre ++ [Event.getService (ToIpvsService sampleService)] ∧
        ∀ x ∈ pre, isAdapterCall x = true → failGetSvc x = false) :=
  ⟨(c7_read_failure failList sampleState emptyKernel).1 (by decide),
    (c7_read_failure failGetSvc sampleState emptyKernel).2
      (ToIpvsService sampleService) (by decide) (by decide)⟩

/-- C8 counterexample: on a successful pass the desired-state service list
is queried twice (once for the service diff, once for the destination
loop), refuting "each provider query is issued at most once during one
Sync". -/
theorem c8_counterexample :
    (Sync noFail sampleState emptyKernel).err = false ∧
    (Sync noFail sampleState emptyKernel).tr.count Event.callGetServices = 2 := by
  decide

/-- C8 amended: the engine is a pure function of its snapshot arguments and
never mutates the desired state, but it does not read it only once per
pass: a successful pass issues the `GetServices` provider query exactly
twice, and every `GetDestinations` query of a pass is made either with a
metadata-stripped copy from the service-level `toAdd` diff or with an
original desired service record. -/
theorem c8_snapshot_reads (oracle : Oracle) (st : State) (k : Kernel) :
    ((Sync oracle st k).err = false →
      (Sync oracle st k).tr.count Event.callGetServices = 2) ∧
    ∀ s : Service, Event.callGetDestinations s ∈ (Sync oracle st k).tr →
      s ∈ serviceRulesToAdd st k ∨ s ∈ st.GetServices := by
  constructor
  · intro h
    exact ((Sync_master oracle st k).2.1 h).2
  · intro s hmem
    by_cases hls : oracle Event.listServices
    · rw [show Sync oracle st k =
          ⟨true, k, [Event.callGetServices, Event.listServices]⟩ from by
        simp [Sync, hls]] at hmem
      simp at hmem
    · by_cases h1 : (addLoop oracle st (serviceRulesToAdd st k) k
          [Event.callGetServices, Event.listServices]).err
      · rw [show Sync oracle st k = addLoop oracle st (serviceRulesToAdd st k) k
            [Event.callGetServices, Event.listServices] from by
          simp [Sync, hls, h1]] at hmem
        rcases addLoop_GD _ _ _ _ _ _ hmem with hm | hm
        · simp at hm
        · exact Or.inl hm
      · by_cases h2 : (delLoop oracle (serviceRulesToRemove st k)
            (addLoop oracle st (serviceRulesToAdd st k) k
              [Event.callGetServices, Event.listServices]).ker
            (addLoop oracle st (serviceRulesToAdd st k) k
              [Event.callGetServices, Event.listServices]).tr).err
        · rw [show Sync oracle st k = delLoop oracle (serviceRulesToRemove st k)
              (addLoop oracle st (serviceRulesToAdd st k) k
                [Event.callGetServices, Event.listServices]).ker
              (addLoop oracle st (serviceRulesToAdd st k) k
                [Event.callGetServices, Event.listServices]).tr from by
            simp [Sync, hls, h1, h2]] at hmem
          rcases addLoop_GD _ _ _ _ _ _ (delLoop_GD _ _ _ _ _ hmem) with hm | hm
          · simp at hm
          · exact Or.inl hm
        · rw [show Sync oracle st k = syncAllDests oracle st st.GetServices
              (delLoop oracle (serviceRulesToRemove st k)
                (addLoop oracle st (serviceRulesToAdd st k) k
                  [Event.callGetServices, Event.listServices]).ker
                (addLoop oracle st (serviceRulesToAdd st k) k
                  [Event.callGetServices, Event.listServices]).tr).ker
              ((delLoop oracle (serviceRulesToRemove st k)
                (addLoop oracle st (serviceRulesToAdd st k) k
                  [Event.callGetServices, Event.listServices]).ker
                (addLoop oracle st (serviceRulesToAdd st k) k
                  [Event.callGetServices, Event.listServices]).tr).tr ++
                [Event.callGetServices]) from by simp [Sync, hls, h1, h2]] at hmem
          rcases syncAllDests_GD _ _ _ _ _ _ hmem with hm | hm
          · rcases List.mem_append.mp hm with hm | hm
            · rcases addLoop_GD _ _ _ _ _ _ (delLoop_GD _ _ _ _ _ hm) with hm | hm
              · simp at hm
              · exact Or.inl hm
            · simp at hm
          · exact Or.inr hm

/-- Witness for the amended C8: the sample pass queries the service list
exactly twice, and its step-2 destination query carries the stripped copy
of the sample service. -/
theorem c8_witness :
    (Sync noFail sampleState emptyKernel).tr.count Event.callGetServices = 2 ∧
    (normalizeService sampleService ∈ serviceRulesToAdd sampleState emptyKernel ∨
      normalizeService sampleService ∈ sampleState.GetServices) :=
  ⟨(c8_snapshot_reads noFail sampleState emptyKernel).1 (by decide),
    (c8_snapshot_reads noFail sampleState emptyKernel).2
      (normalizeService sampleService) (by decide)⟩

end Fusis
